import Mathlib

/-!
Verification of the anti2api-go protocol-translation proxy against its
natural-language specification.

The development shallowly embeds the relevant Go source files:

* internal/adapter/openai/sse.go  — the OpenAI SSE writer with its trailing
  UTF-8 byte buffer (extractValidUTF8, writeContentLocked, flushLocked);
* the Claude SSE emitter (the revision carrying pendingSignature and
  signature_delta emission, cited as closeThinkingBlock);
* internal/adapter/claude/converter.go — Claude→Canonical conversion and
  applySignatureToParts;
* the Claude generation-config builder and tool-schema cleaner
  (buildClaudeGenerationConfig, cleanSchemaForVertexAI, deepCopyMap);
* the Vertex upstream client retry machinery (WithRetry, ExtractErrorDetails);
* the credential store (Account.IsExpired, AccountStore.GetToken);
* internal/vertex/stream.go — mergeParts;
* internal/core/models.go — ShouldEnableThinking, BuildThinkingConfig,
  ResolveModelName and friends.

Go byte strings are modelled as List Nat (each entry one byte), Go
map[string]interface-maps as association lists with a canonical
replace-or-append insert, JSON values as the inductive JVal, and time
as integer milliseconds.  Randomised identifier generation is modelled
by a fixed placeholder string, and injected callbacks (the OAuth refresh
function installed via SetRefreshFunc, the sonic JSON parser) are taken
as explicit function arguments.
-/

namespace Anti2api

/-! ## Byte-level UTF-8 validity

Go's utf8.Valid accepts exactly the byte sequences that are concatenations
of RFC 3629 character encodings: ASCII bytes below 0x80; two-byte sequences
with lead 0xC2..0xDF; three-byte sequences with lead 0xE0..0xEF (the first
continuation restricted for 0xE0 and 0xED to exclude overlong encodings and
surrogates); four-byte sequences with lead 0xF0..0xF4 (the first
continuation restricted for 0xF0 and 0xF4).  Every continuation byte lies
in 0x80..0xBF.  This is the decoder below, on bytes modelled as Nat. -/

/-- A UTF-8 continuation byte: 0x80..0xBF. -/
def isCont (b : Nat) : Bool := 128 ≤ b && b < 192

/-- Admissible first continuation byte after a three-byte lead. -/
def cont3first (b c : Nat) : Bool :=
  if b = 224 then 160 ≤ c && c < 192
  else if b = 237 then 128 ≤ c && c < 160
  else isCont c

/-- Admissible first continuation byte after a four-byte lead. -/
def cont4first (b c : Nat) : Bool :=
  if b = 240 then 144 ≤ c && c < 192
  else if b = 244 then 128 ≤ c && c < 144
  else isCont c

/-- One step of the UTF-8 decoder: consume a single character encoding from
the front, returning the remainder, or none if the front is not a complete
admissible encoding. -/
def utf8Dec : List Nat → Option (List Nat)
  | [] => none
  | b :: rest =>
    if b < 128 then some rest
    else if b < 194 then none
    else if b < 224 then
      if 1 ≤ rest.length && isCont (rest.getD 0 0) then some (rest.drop 1) else none
    else if b < 240 then
      if 2 ≤ rest.length && cont3first b (rest.getD 0 0) && isCont (rest.getD 1 0) then
        some (rest.drop 2)
      else none
    else if b < 245 then
      if 3 ≤ rest.length && cont4first b (rest.getD 0 0) && isCont (rest.getD 1 0) &&
          isCont (rest.getD 2 0) then
        some (rest.drop 3)
      else none
    else none

/-- Iterated decoding with a step budget (each step consumes at least one
byte, so a budget of the list length always suffices). -/
def utf8ValidF : Nat → List Nat → Bool
  | _, [] => true
  | 0, _ :: _ => false
  | fuel + 1, b :: rest =>
    match utf8Dec (b :: rest) with
    | some r => utf8ValidF fuel r
    | none => false

/-- Go utf8.Valid on a byte sequence (RFC 3629 acceptance). -/
def utf8Valid (l : List Nat) : Bool := utf8ValidF l.length l

/-- The encoding of a single UTF-8 character (RFC 3629). -/
def utf8Char : List Nat → Bool
  | [b] => b < 128
  | [b, c] => 194 ≤ b && b < 224 && isCont c
  | [b, c, d] => 224 ≤ b && b < 240 && cont3first b c && isCont d
  | [b, c, d, e] => 240 ≤ b && b < 245 && cont4first b c && isCont d && isCont e
  | _ => false

/-- A nonempty strict prefix of some single-character encoding: the shape of
the bytes the SSE writer may buffer while waiting for the rest of a
multi-byte character. -/
def IncompleteChar (p : List Nat) : Prop :=
  p ≠ [] ∧ ∃ c, utf8Char c = true ∧ p <+: c ∧ p.length < c.length

/-! ## extractValidUTF8 (internal/adapter/openai/sse.go lines 180-233)

The Go function scans backwards over (at most) the last four bytes looking
for the start byte of an incomplete multi-byte sequence; if one is found it
splits there, otherwise it falls back to stripping trailing bytes one at a
time until the remainder validates.  scanBack models the backward scan
(some idx is the Go early return, none covers break and loop exhaustion),
stripTail the fallback loop. -/

/-- The expected encoded length computed by extractValidUTF8 from a lead
byte that is at least 0xC0. -/
def expLen (b : Nat) : Nat := if 240 ≤ b then 4 else if 224 ≤ b then 3 else 2

/-- The body of the backward scan of extractValidUTF8, with the number of
loop iterations still allowed as a structural counter: the Go loop runs i
from 1 while i does not exceed checkLen = min 4 len, so it is entered with
steps = checkLen.  It inspects data[len-i], skips continuation bytes, and
on a lead byte whose encoded length exceeds the bytes available reports the
split index (the Go early return); none covers break and loop exhaustion. -/
def scanGo (data : List Nat) : Nat → Nat → Option Nat
  | _, 0 => none
  | i, steps + 1 =>
    let idx := data.length - i
    let b := data.getD idx 0
    if 192 ≤ b then
      if i < expLen b then some idx else none
    else if 128 ≤ b then scanGo data (i + 1) steps
    else none

/-- The backward scan of extractValidUTF8 over the last min 4 len bytes. -/
def scanBack (data : List Nat) : Option Nat :=
  scanGo data 1 (min 4 data.length)

/-- The body of the fallback loop of extractValidUTF8: strip trailing bytes,
collecting them in remaining, until the rest validates (or nothing is
left).  The loop runs at most data.length times, which is the structural
counter it is entered with. -/
def stripGo : Nat → List Nat → List Nat → List Nat × List Nat
  | 0, data, remaining => (data, remaining)
  | fuel + 1, data, remaining =>
    if data = [] then ([], remaining)
    else if utf8Valid data then (data, remaining)
    else stripGo fuel data.dropLast (data.getLastD 0 :: remaining)

/-- The fallback loop of extractValidUTF8. -/
def stripTail (data : List Nat) : List Nat × List Nat :=
  stripGo data.length data []

/-- extractValidUTF8: longest valid UTF-8 prefix plus the retained tail. -/
def extractValidUTF8 (data : List Nat) : List Nat × List Nat :=
  if data.length = 0 then ([], [])
  else if utf8Valid data then (data, [])
  else
    match scanBack data with
    | some idx => (data.take idx, data.drop idx)
    | none => stripTail data

/-! ## The OpenAI SSE writer (internal/adapter/openai/sse.go)

Only the fields that carry content are modelled; the HTTP writer itself is
replaced by an event log.  Every chunk written by the Go code appends one
OAIEvent; the content field of a delta is a byte sequence (Go strings are
byte strings). -/

/-- One emitted OpenAI SSE chunk, reduced to the delta payload. -/
inductive OAIEvent
  | role
  | content (bytes : List Nat)
  | reasoning (bytes : List Nat)
  | finishChunk
  deriving DecidableEq, Repr

/-- State of the SSEWriter: the role flag, both UTF-8 byte buffers, and the
log of emitted chunks. -/
structure SSEWriter where
  sentRole : Bool
  contentBuffer : List Nat
  reasoningBuffer : List Nat
  events : List OAIEvent
  deriving Repr

/-- NewSSEWriter: empty buffers, role not yet sent. -/
def newSSEWriter : SSEWriter :=
  { sentRole := false, contentBuffer := [], reasoningBuffer := [], events := [] }

/-- writeRoleLocked: emit the assistant-role chunk once. -/
def SSEWriter.writeRole (w : SSEWriter) : SSEWriter :=
  if w.sentRole then w
  else { w with sentRole := true, events := w.events ++ [OAIEvent.role] }

/-- writeContentLocked: append the new bytes to the content buffer, emit the
longest valid UTF-8 prefix, retain the incomplete tail. -/
def SSEWriter.writeContent (w : SSEWriter) (bytes : List Nat) : SSEWriter :=
  let w1 := w.writeRole
  let data := w1.contentBuffer ++ bytes
  let split := extractValidUTF8 data
  { w1 with
    contentBuffer := split.2
    events := if split.1 = [] then w1.events
              else w1.events ++ [OAIEvent.content split.1] }

/-- writeReasoningLocked: the same with the independent reasoning buffer. -/
def SSEWriter.writeReasoning (w : SSEWriter) (bytes : List Nat) : SSEWriter :=
  let w1 := w.writeRole
  let data := w1.reasoningBuffer ++ bytes
  let split := extractValidUTF8 data
  { w1 with
    reasoningBuffer := split.2
    events := if split.1 = [] then w1.events
              else w1.events ++ [OAIEvent.reasoning split.1] }

/-- flushLocked: emit whatever remains in either buffer, raw. -/
def SSEWriter.flush (w : SSEWriter) : SSEWriter :=
  let w1 :=
    if w.contentBuffer = [] then w
    else { w with contentBuffer := [],
                  events := w.events ++ [OAIEvent.content w.contentBuffer] }
  if w1.reasoningBuffer = [] then w1
  else { w1 with reasoningBuffer := [],
                 events := w1.events ++ [OAIEvent.reasoning w1.reasoningBuffer] }

/-- WriteFinish: flush both buffers, then emit the finish chunk (the
trailing data DONE marker carries no content and is not modelled). -/
def SSEWriter.writeFinish (w : SSEWriter) : SSEWriter :=
  let w1 := w.flush
  { w1 with events := w1.events ++ [OAIEvent.finishChunk] }

/-- The content fields of the emitted deltas, in emission order. -/
def contentsOf (events : List OAIEvent) : List (List Nat) :=
  events.filterMap fun e =>
    match e with
    | OAIEvent.content bytes => some bytes
    | _ => none

example :
    contentsOf (((newSSEWriter.writeContent [228, 189]).writeContent
      [160, 229, 165]).writeContent [189]).events
      = [[228, 189, 160], [229, 165, 189]] := by decide

example : extractValidUTF8 [228, 189, 160, 229, 165] = ([228, 189, 160], [229, 165]) := by
  decide

/-! ### Structure of valid UTF-8 byte sequences -/

theorem utf8Dec_length {l r : List Nat} (h : utf8Dec l = some r) : r.length < l.length := by
  match l with
  | [] => simp [utf8Dec] at h
  | b :: rest =>
    simp only [utf8Dec] at h
    split_ifs at h <;>
      first
      | (injection h with h2; rw [← h2]; simp only [List.length_drop, List.length_cons]; omega)
      | simp at h

theorem utf8ValidF_fuel :
    ∀ (f1 f2 : Nat) (l : List Nat), l.length ≤ f1 → l.length ≤ f2 →
      utf8ValidF f1 l = utf8ValidF f2 l := by
  intro f1
  induction f1 with
  | zero =>
    intro f2 l h1 _
    have : l = [] := List.eq_nil_of_length_eq_zero (by omega)
    subst this
    cases f2 <;> simp [utf8ValidF]
  | succ g1 ih =>
    intro f2 l h1 h2
    cases l with
    | nil => cases f2 <;> simp [utf8ValidF]
    | cons b rest =>
      cases f2 with
      | zero => simp at h2
      | succ g2 =>
        simp only [utf8ValidF]
        cases hdec : utf8Dec (b :: rest) with
        | none => rfl
        | some r =>
          have hlen := utf8Dec_length hdec
          simp only [List.length_cons] at h1 h2 hlen
          exact ih g2 r (by omega) (by omega)

theorem utf8Valid_ne_nil {l : List Nat} (h : l ≠ []) :
    utf8Valid l = (match utf8Dec l with
      | some r => utf8Valid r
      | none => false) := by
  match l with
  | b :: rest =>
    show utf8ValidF (rest.length + 1) (b :: rest) = _
    simp only [utf8ValidF]
    cases hdec : utf8Dec (b :: rest) with
    | none => rfl
    | some r =>
      have hlen := utf8Dec_length hdec
      simp only [List.length_cons] at hlen
      exact utf8ValidF_fuel rest.length r.length r (by omega) (le_refl _)

theorem utf8Valid_nil : utf8Valid [] = true := rfl

/-- Consuming one admissible character encoding from the front. -/
theorem utf8Dec_char_append {c : List Nat} (h : utf8Char c = true) (s : List Nat) :
    utf8Dec (c ++ s) = some s := by
  match c with
  | [b] =>
    simp only [utf8Char, decide_eq_true_eq] at h
    simp [utf8Dec, h]
  | [b, c1] =>
    simp only [utf8Char, Bool.and_eq_true, decide_eq_true_eq] at h
    obtain ⟨⟨h1, h2⟩, h3⟩ := h
    simp only [List.cons_append, List.nil_append, utf8Dec]
    rw [if_neg (by omega), if_neg (by omega), if_pos h2]
    simp [h3]
  | [b, c1, d] =>
    simp only [utf8Char, Bool.and_eq_true, decide_eq_true_eq] at h
    obtain ⟨⟨⟨h1, h2⟩, h3⟩, h4⟩ := h
    simp only [List.cons_append, List.nil_append, utf8Dec]
    rw [if_neg (by omega), if_neg (by omega), if_neg (by omega), if_pos h2]
    simp [h3, h4]
  | [b, c1, d, e] =>
    simp only [utf8Char, Bool.and_eq_true, decide_eq_true_eq] at h
    obtain ⟨⟨⟨⟨h1, h2⟩, h3⟩, h4⟩, h5⟩ := h
    simp only [List.cons_append, List.nil_append, utf8Dec]
    rw [if_neg (by omega), if_neg (by omega), if_neg (by omega), if_neg (by omega),
      if_pos h2]
    simp [h3, h4, h5]
  | [] => simp [utf8Char] at h
  | b1 :: b2 :: b3 :: b4 :: b5 :: rest => simp [utf8Char] at h

/-- A successful decoding step consumes exactly one character encoding. -/
theorem utf8Dec_some_char {l r : List Nat} (h : utf8Dec l = some r) :
    ∃ c, utf8Char c = true ∧ l = c ++ r := by
  match l with
  | [] => simp [utf8Dec] at h
  | b :: rest =>
    simp only [utf8Dec] at h
    split_ifs at h with hb1 hb2 hb3 hcond3 hb4 hcond4 hb5 hcond5
    · exact ⟨[b], by simp [utf8Char]; omega, by simpa using h⟩
    · simp only [Bool.and_eq_true, decide_eq_true_eq] at hcond3
      obtain ⟨hlen, hc⟩ := hcond3
      match rest, hlen with
      | c1 :: rest2, _ =>
        simp only [List.getD_cons_zero] at hc
        refine ⟨[b, c1], ?_, ?_⟩
        · simp [utf8Char, hc]; omega
        · simpa using h
    · simp only [Bool.and_eq_true, decide_eq_true_eq] at hcond4
      obtain ⟨⟨hlen, hc⟩, hd⟩ := hcond4
      match rest, hlen with
      | c1 :: d1 :: rest2, _ =>
        simp only [List.getD_cons_zero, List.getD_cons_succ] at hc hd
        refine ⟨[b, c1, d1], ?_, ?_⟩
        · simp [utf8Char, hc, hd]; omega
        · simpa using h
    · simp only [Bool.and_eq_true, decide_eq_true_eq] at hcond5
      obtain ⟨⟨⟨hlen, hc⟩, hd⟩, he⟩ := hcond5
      match rest, hlen with
      | c1 :: d1 :: e1 :: rest2, _ =>
        simp only [List.getD_cons_zero, List.getD_cons_succ] at hc hd he
        refine ⟨[b, c1, d1, e1], ?_, ?_⟩
        · simp [utf8Char, hc, hd, he]; omega
        · simpa using h

theorem utf8Char_ne_nil {c : List Nat} (h : utf8Char c = true) : c ≠ [] := by
  intro hc; subst hc; simp [utf8Char] at h

/-- Prepending a valid sequence does not change validity of the rest. -/
theorem utf8Valid_append {a : List Nat} (ha : utf8Valid a = true) (s : List Nat) :
    utf8Valid (a ++ s) = utf8Valid s := by
  by_cases hnil : a = []
  · subst hnil; simp
  · rw [utf8Valid_ne_nil hnil] at ha
    cases hdec : utf8Dec a with
    | none => rw [hdec] at ha; simp at ha
    | some r =>
      rw [hdec] at ha
      obtain ⟨c, hc, rfl⟩ := utf8Dec_some_char hdec
      have hr : utf8Valid r = true := ha
      have hlt : r.length < (c ++ r).length := utf8Dec_length hdec
      rw [List.append_assoc]
      have hne : c ++ (r ++ s) ≠ [] := by
        simp [utf8Char_ne_nil hc]
      rw [utf8Valid_ne_nil hne, utf8Dec_char_append hc]
      exact utf8Valid_append hr s
termination_by a.length

theorem utf8Valid_join {ds : List (List Nat)} (h : ∀ d ∈ ds, utf8Valid d = true) :
    utf8Valid ds.join = true := by
  induction ds with
  | nil => rfl
  | cons d ds ih =>
    have hd : utf8Valid d = true := h d (by simp)
    have hstep : (d :: ds).join = d ++ ds.join := by simp
    rw [hstep, utf8Valid_append hd]
    exact ih fun x hx => h x (by simp [hx])

theorem utf8Char_valid {c : List Nat} (h : utf8Char c = true) : utf8Valid c = true := by
  have hne := utf8Char_ne_nil h
  have : utf8Dec (c ++ []) = some [] := utf8Dec_char_append h []
  rw [List.append_nil] at this
  rw [utf8Valid_ne_nil hne, this]
  rfl

/-! ### Incomplete character prefixes -/

/-- Normal form of an incomplete character prefix: one lead byte at least
0xC2 (hence at least 0xC0) followed only by continuation bytes, with fewer
bytes than the lead byte announces. -/
theorem incompleteChar_shape {p : List Nat} (h : IncompleteChar p) :
    ∃ b q, p = b :: q ∧ 194 ≤ b ∧ b < 245 ∧ (∀ x ∈ q, 128 ≤ x ∧ x < 192) ∧
      p.length < expLen b := by
  obtain ⟨hne, c, hc, hpre, hlt⟩ := h
  obtain ⟨t, ht⟩ := hpre
  match c, hc with
  | [b0], hc =>
    exfalso
    have h1 : 1 ≤ p.length := by
      cases p
      · exact absurd rfl hne
      · simp
    simp only [List.length_singleton] at hlt
    omega
  | [b0, c1], hc =>
    simp only [utf8Char, Bool.and_eq_true, decide_eq_true_eq] at hc
    obtain ⟨⟨h1, h2⟩, h3⟩ := hc
    have hlen : p.length < 2 := by simpa using hlt
    match p, hne, hlen with
    | [x], _, _ =>
      simp only [List.cons_append, List.nil_append, List.cons.injEq] at ht
      obtain ⟨rfl, -⟩ := ht
      exact ⟨x, [], rfl, by omega, by omega, by simp,
        by unfold expLen; split_ifs <;> simp <;> omega⟩
  | [b0, c1, d1], hc =>
    simp only [utf8Char, Bool.and_eq_true, decide_eq_true_eq] at hc
    obtain ⟨⟨⟨h1, h2⟩, h3⟩, h4⟩ := hc
    have hc1 : 128 ≤ c1 ∧ c1 < 192 := by
      unfold cont3first at h3
      split_ifs at h3 <;> simp_all [isCont] <;> omega
    have hlen : p.length < 3 := by simpa using hlt
    match p, hne, hlen with
    | [x], _, _ =>
      simp only [List.cons_append, List.nil_append, List.cons.injEq] at ht
      obtain ⟨rfl, -⟩ := ht
      exact ⟨x, [], rfl, by omega, by omega, by simp,
        by unfold expLen; split_ifs <;> simp <;> omega⟩
    | [x, y], _, _ =>
      simp only [List.cons_append, List.nil_append, List.cons.injEq] at ht
      obtain ⟨rfl, rfl, -⟩ := ht
      refine ⟨x, [y], rfl, by omega, by omega, ?_,
        by unfold expLen; split_ifs <;> simp <;> omega⟩
      intro z hz
      simp only [List.mem_singleton] at hz
      subst hz
      exact hc1
  | [b0, c1, d1, e1], hc =>
    simp only [utf8Char, Bool.and_eq_true, decide_eq_true_eq] at hc
    obtain ⟨⟨⟨⟨h1, h2⟩, h3⟩, h4⟩, h5⟩ := hc
    have hc1 : 128 ≤ c1 ∧ c1 < 192 := by
      unfold cont4first at h3
      split_ifs at h3 <;> simp_all [isCont] <;> omega
    have hd1 : 128 ≤ d1 ∧ d1 < 192 := by simp [isCont] at h4; omega
    have hlen : p.length < 4 := by simpa using hlt
    match p, hne, hlen with
    | [x], _, _ =>
      simp only [List.cons_append, List.nil_append, List.cons.injEq] at ht
      obtain ⟨rfl, -⟩ := ht
      exact ⟨x, [], rfl, by omega, by omega, by simp,
        by unfold expLen; split_ifs <;> simp <;> omega⟩
    | [x, y], _, _ =>
      simp only [List.cons_append, List.nil_append, List.cons.injEq] at ht
      obtain ⟨rfl, rfl, -⟩ := ht
      refine ⟨x, [y], rfl, by omega, by omega, ?_,
        by unfold expLen; split_ifs <;> simp <;> omega⟩
      intro z hz
      simp only [List.mem_singleton] at hz
      subst hz
      exact hc1
    | [x, y, z], _, _ =>
      simp only [List.cons_append, List.nil_append, List.cons.injEq] at ht
      obtain ⟨rfl, rfl, rfl, -⟩ := ht
      refine ⟨x, [y, z], rfl, by omega, by omega, ?_,
        by unfold expLen; split_ifs <;> simp <;> omega⟩
      intro w hw
      simp only [List.mem_cons, List.mem_singleton] at hw
      rcases hw with hw | hw | hw
      · subst hw; exact hc1
      · subst hw; exact hd1
      · simp at hw
  | [], hc => simp [utf8Char] at hc
  | b1 :: b2 :: b3 :: b4 :: b5 :: r, hc => simp [utf8Char] at hc

/-- An incomplete character prefix is itself invalid. -/
theorem incompleteChar_not_valid {p : List Nat} (h : IncompleteChar p) :
    utf8Valid p = false := by
  obtain ⟨b, q, rfl, hb1, hb2, hq, hlen⟩ := incompleteChar_shape h
  have hdec : utf8Dec (b :: q) = none := by
    simp only [utf8Dec]
    rw [if_neg (by omega), if_neg (by omega)]
    by_cases hb3 : b < 224
    · have hq1 : q.length < 1 := by
        unfold expLen at hlen
        rw [if_neg (by omega), if_neg (by omega)] at hlen
        simp only [List.length_cons] at hlen
        omega
      rw [if_pos hb3, if_neg ?hcond]
      case hcond =>
        simp only [Bool.and_eq_true, decide_eq_true_eq]
        rintro ⟨hc1, -⟩
        omega
    · by_cases hb4 : b < 240
      · have hq2 : q.length < 2 := by
          unfold expLen at hlen
          rw [if_neg (by omega), if_pos (by omega)] at hlen
          simp only [List.length_cons] at hlen
          omega
        rw [if_neg hb3, if_pos hb4, if_neg ?hcond2]
        case hcond2 =>
          simp only [Bool.and_eq_true, decide_eq_true_eq]
          rintro ⟨⟨hc1, -⟩, -⟩
          omega
      · have hq3 : q.length < 3 := by
          unfold expLen at hlen
          rw [if_pos (by omega)] at hlen
          simp only [List.length_cons] at hlen
          omega
        rw [if_neg hb3, if_neg hb4, if_pos (by omega), if_neg ?hcond3]
        case hcond3 =>
          simp only [Bool.and_eq_true, decide_eq_true_eq]
          rintro ⟨⟨⟨hc1, -⟩, -⟩, -⟩
          omega
  rw [utf8Valid_ne_nil (by simp), hdec]

/-- A prefix of a valid sequence splits into a valid part followed by at
most one incomplete character prefix. -/
theorem valid_prefix_decomp (T : List Nat) (hT : utf8Valid T = true) (t : List Nat)
    (hpre : t <+: T) :
    ∃ a p, t = a ++ p ∧ utf8Valid a = true ∧ (p = [] ∨ IncompleteChar p) := by
  by_cases hnil : T = []
  · subst hnil
    have ht : t = [] := List.prefix_nil.mp hpre
    subst ht
    exact ⟨[], [], rfl, rfl, Or.inl rfl⟩
  · rw [utf8Valid_ne_nil hnil] at hT
    cases hdec : utf8Dec T with
    | none => rw [hdec] at hT; simp at hT
    | some r =>
      rw [hdec] at hT
      obtain ⟨c, hc, hTeq⟩ := utf8Dec_some_char hdec
      have hr : utf8Valid r = true := hT
      have hlt : r.length < T.length := utf8Dec_length hdec
      have hcpre : c <+: T := hTeq ▸ List.prefix_append c r
      by_cases hlen : t.length < c.length
      · have htc : t <+: c := List.prefix_of_prefix_length_le hpre hcpre (by omega)
        by_cases htnil : t = []
        · subst htnil; exact ⟨[], [], rfl, rfl, Or.inl rfl⟩
        · exact ⟨[], t, by simp, rfl, Or.inr ⟨htnil, c, hc, htc, hlen⟩⟩
      · have hct : c <+: t := List.prefix_of_prefix_length_le hcpre hpre (by omega)
        obtain ⟨t2, rfl⟩ := hct
        have ht2 : t2 <+: r := by
          obtain ⟨s, hs⟩ := hpre
          rw [hTeq, List.append_assoc] at hs
          exact ⟨s, List.append_cancel_left hs⟩
        obtain ⟨a2, p2, heq, hva, hp⟩ := valid_prefix_decomp r hr t2 ht2
        refine ⟨c ++ a2, p2, ?_, ?_, hp⟩
        · rw [heq, List.append_assoc]
        · rw [utf8Valid_append (utf8Char_valid hc), hva]
termination_by T.length

/-- Cancelling a known valid prefix from a decomposed sequence. -/
theorem valid_incomplete_cancel {a s u p : List Nat} (ha : utf8Valid a = true)
    (heq : a ++ s = u ++ p) (hu : utf8Valid u = true)
    (hp : p = [] ∨ IncompleteChar p) :
    ∃ u2, s = u2 ++ p ∧ utf8Valid u2 = true := by
  by_cases hle : a.length ≤ u.length
  · have hau : a <+: u := by
      have h1 : a <+: u ++ p := ⟨s, heq⟩
      have h2 : u <+: u ++ p := ⟨p, rfl⟩
      exact List.prefix_of_prefix_length_le h1 h2 hle
    obtain ⟨u2, rfl⟩ := hau
    refine ⟨u2, ?_, ?_⟩
    · rw [List.append_assoc] at heq
      exact List.append_cancel_left heq
    · rw [utf8Valid_append ha] at hu
      exact hu
  · exfalso
    have hua : u <+: a := by
      have h1 : u <+: a ++ s := ⟨p, heq.symm⟩
      have h2 : a <+: a ++ s := ⟨s, rfl⟩
      exact List.prefix_of_prefix_length_le h1 h2 (by omega)
    obtain ⟨a2, rfl⟩ := hua
    have ha2len : 1 ≤ a2.length := by
      have := congrArg List.length (rfl : u ++ a2 = u ++ a2)
      simp only [List.length_append] at hle ⊢
      omega
    have ha2 : utf8Valid a2 = true := by
      rw [utf8Valid_append hu] at ha
      exact ha
    have ha2p : a2 <+: p := by
      rw [List.append_assoc] at heq
      have h2 := List.append_cancel_left heq
      exact ⟨s, h2⟩
    rcases hp with rfl | hinc
    · have : a2 = [] := List.prefix_nil.mp ha2p
      subst this
      simp at ha2len
    · obtain ⟨hpne, c, hcc, hpc, hplen⟩ := hinc
      have ha2inc : IncompleteChar a2 := by
        refine ⟨?_, c, hcc, ha2p.trans hpc, ?_⟩
        · intro hcontra
          subst hcontra
          simp at ha2len
        · have := ha2p.length_le
          omega
      have := incompleteChar_not_valid ha2inc
      rw [this] at ha2
      exact absurd ha2 (by simp)

/-! ### Correctness of the backward scan on a valid-plus-incomplete split -/

theorem scanGo_hits (a : List Nat) (b : Nat) (q : List Nat)
    (hb1 : 192 ≤ b) (hb2 : b < 245) (hq : ∀ x ∈ q, 128 ≤ x ∧ x < 192)
    (hlen : q.length + 1 < expLen b) :
    ∀ k, k ≤ q.length → ∀ i steps, i = q.length + 1 - k →
      steps = min 4 (a ++ b :: q).length + 1 - i →
      scanGo (a ++ b :: q) i steps = some a.length := by
  have hexp4 : expLen b ≤ 4 := by unfold expLen; split_ifs <;> omega
  have hn : (a ++ b :: q).length = a.length + q.length + 1 := by simp; omega
  have hmin : q.length + 1 ≤ min 4 (a ++ b :: q).length := by
    rw [hn]; omega
  intro k
  induction k with
  | zero =>
    intro _ i steps hi hsteps
    subst hi
    obtain ⟨s, rfl⟩ : ∃ s, steps = s + 1 := ⟨steps - 1, by omega⟩
    simp only [scanGo]
    have hidx : (a ++ b :: q).length - (q.length + 1 - 0) = a.length := by omega
    rw [hidx]
    have hbyte : (a ++ b :: q).getD a.length 0 = b := by
      rw [List.getD_append_right a (b :: q) 0 a.length (le_refl a.length)]
      simp
    rw [hbyte, if_pos (by omega), if_pos (by omega)]
  | succ k ih =>
    intro hk i steps hi hsteps
    subst hi
    have hi1 : 1 ≤ q.length + 1 - (k + 1) := by omega
    have hile : q.length + 1 - (k + 1) ≤ q.length := by omega
    obtain ⟨s, rfl⟩ : ∃ s, steps = s + 1 := ⟨steps - 1, by omega⟩
    simp only [scanGo]
    set i := q.length + 1 - (k + 1) with hidef
    have hidx : (a ++ b :: q).length - i = a.length + 1 + (q.length - i) := by omega
    have hjlt : q.length - i < q.length := by omega
    have hbyte : (a ++ b :: q).getD ((a ++ b :: q).length - i) 0 = q.getD (q.length - i) 0 := by
      rw [hidx, List.getD_append_right a (b :: q) 0 _ (by omega)]
      have heq2 : a.length + 1 + (q.length - i) - a.length = (q.length - i) + 1 := by omega
      rw [heq2]
      simp
    have hmem : q.getD (q.length - i) 0 ∈ q := by
      rw [List.getD_eq_getElem q 0 hjlt]
      exact List.getElem_mem hjlt
    obtain ⟨hc1, hc2⟩ := hq _ hmem
    rw [hbyte, if_neg (by omega), if_pos (by omega)]
    have : i + 1 = q.length + 1 - k := by omega
    rw [this]
    exact ih (by omega) (q.length + 1 - k) s rfl (by omega)

theorem scanBack_incomplete (a : List Nat) {p : List Nat} (hinc : IncompleteChar p) :
    scanBack (a ++ p) = some a.length := by
  obtain ⟨b, q, rfl, hb1, hb2, hq, hlen⟩ := incompleteChar_shape hinc
  unfold scanBack
  exact scanGo_hits a b q (by omega) hb2 hq (by simpa using hlen) q.length (le_refl _)
    1 (min 4 (a ++ b :: q).length) (by omega) (by omega)

/-- extractValidUTF8 on a valid part followed by an incomplete character
prefix returns exactly that split. -/
theorem extractValidUTF8_split {a p : List Nat} (ha : utf8Valid a = true)
    (hp : p = [] ∨ IncompleteChar p) :
    extractValidUTF8 (a ++ p) = (a, p) := by
  rcases hp with rfl | hinc
  · rw [List.append_nil]
    by_cases hnil : a = []
    · subst hnil; rfl
    · unfold extractValidUTF8
      rw [if_neg (by simp [hnil]), if_pos ha]
  · have hne : p ≠ [] := hinc.1
    have hinval : utf8Valid (a ++ p) = false := by
      rw [utf8Valid_append ha]
      exact incompleteChar_not_valid hinc
    unfold extractValidUTF8
    rw [if_neg (by simp [hne]), if_neg (by simp [hinval]), scanBack_incomplete a hinc]
    simp only [List.take_left, List.drop_left]

/-! ### The UTF-8 boundary invariant of the writer -/

theorem contentsOf_append (evs1 evs2 : List OAIEvent) :
    contentsOf (evs1 ++ evs2) = contentsOf evs1 ++ contentsOf evs2 := by
  unfold contentsOf
  rw [List.filterMap_append]

theorem contentsOf_role (evs : List OAIEvent) :
    contentsOf (evs ++ [OAIEvent.role]) = contentsOf evs := by
  rw [contentsOf_append]
  simp [contentsOf]

theorem contentsOf_content (evs : List OAIEvent) (d : List Nat) :
    contentsOf (evs ++ [OAIEvent.content d]) = contentsOf evs ++ [d] := by
  rw [contentsOf_append]
  simp [contentsOf]

/-- Invariant of the content path of the SSE writer: the emitted content
deltas followed by the buffered bytes reproduce everything written so far,
every emitted delta is valid UTF-8, and the buffer holds at most one
incomplete character prefix. -/
def WriterInv (processed : List Nat) (w : SSEWriter) : Prop :=
  (contentsOf w.events).flatten ++ w.contentBuffer = processed ∧
  (∀ d ∈ contentsOf w.events, utf8Valid d = true) ∧
  (w.contentBuffer = [] ∨ IncompleteChar w.contentBuffer)

theorem writeRole_fields (w : SSEWriter) :
    (w.writeRole).contentBuffer = w.contentBuffer ∧
    contentsOf (w.writeRole).events = contentsOf w.events := by
  unfold SSEWriter.writeRole
  split_ifs
  · exact ⟨rfl, rfl⟩
  · exact ⟨rfl, contentsOf_role w.events⟩

theorem writeContent_inv {T t : List Nat} (hT : utf8Valid T = true)
    {w : SSEWriter} (hw : WriterInv t w) (c : List Nat)
    (hpre : (t ++ c) <+: T) :
    WriterInv (t ++ c) (w.writeContent c) := by
  obtain ⟨hjoin, hvalidAll, hbuf⟩ := hw
  obtain ⟨u, p, heq, hu, hp⟩ := valid_prefix_decomp T hT (t ++ c) hpre
  have hF : utf8Valid (contentsOf w.events).flatten = true :=
    utf8Valid_join hvalidAll
  have heq2 : (contentsOf w.events).flatten ++ (w.contentBuffer ++ c) = u ++ p := by
    rw [← List.append_assoc, hjoin, ← heq]
  obtain ⟨u2, hsplit, hu2⟩ := valid_incomplete_cancel hF heq2 hu hp
  have hextract : extractValidUTF8 (w.contentBuffer ++ c) = (u2, p) := by
    rw [hsplit]
    exact extractValidUTF8_split hu2 hp
  obtain ⟨hrb, hre⟩ := writeRole_fields w
  unfold SSEWriter.writeContent
  dsimp only
  rw [hrb, hextract]
  refine ⟨?_, ?_, ?_⟩
  · by_cases hu2nil : u2 = []
    · subst hu2nil
      rw [if_pos rfl, hre, ← hjoin, List.append_assoc]
      have hp2 : w.contentBuffer ++ c = p := by simpa using hsplit
      rw [hp2]
    · rw [if_neg hu2nil, contentsOf_content, hre, List.flatten_append]
      have h1 : ([u2] : List (List Nat)).flatten = u2 := by simp
      rw [h1, ← hjoin, List.append_assoc, List.append_assoc, hsplit]
  · intro d hd
    by_cases hu2nil : u2 = []
    · simp only [if_pos hu2nil, hre] at hd
      exact hvalidAll d hd
    · simp only [if_neg hu2nil, contentsOf_content, hre, List.mem_append,
        List.mem_singleton] at hd
      rcases hd with hd | rfl
      · exact hvalidAll d hd
      · exact hu2
  · exact hp

theorem writer_fold_inv {T : List Nat} (hT : utf8Valid T = true) :
    ∀ (chunks : List (List Nat)) (t : List Nat) (w : SSEWriter),
      WriterInv t w → (t ++ chunks.flatten) <+: T →
      WriterInv (t ++ chunks.flatten) (chunks.foldl SSEWriter.writeContent w) := by
  intro chunks
  induction chunks with
  | nil =>
    intro t w hw _
    simpa using hw
  | cons c cs ih =>
    intro t w hw hpre
    have hassoc : t ++ (c :: cs).flatten = (t ++ c) ++ cs.flatten := by
      simp [List.flatten_cons, List.append_assoc]
    have hpre1 : (t ++ c) <+: T := by
      refine List.IsPrefix.trans ⟨cs.flatten, ?_⟩ hpre
      rw [hassoc]
    have hstep := writeContent_inv hT hw c hpre1
    have := ih (t ++ c) (w.writeContent c) hstep (by rw [← hassoc]; exact hpre)
    rw [hassoc]
    simpa using this

theorem writer_fold_reasoning (chunks : List (List Nat)) (w : SSEWriter) :
    (chunks.foldl SSEWriter.writeContent w).reasoningBuffer = w.reasoningBuffer := by
  induction chunks generalizing w with
  | nil => rfl
  | cons c cs ih =>
    show (cs.foldl SSEWriter.writeContent (w.writeContent c)).reasoningBuffer = _
    rw [ih]
    unfold SSEWriter.writeContent SSEWriter.writeRole
    split_ifs <;> rfl

/-- Claim C1: for every sequence of calls to the OpenAI SSE writer's
WriteContent whose arguments are an arbitrary byte-level split of a valid
UTF-8 byte sequence, the concatenation of the content fields of all
emitted deltas (including the final flush performed by WriteFinish) equals
the original byte sequence, and every individual delta's content field is
valid UTF-8 (so no delta ends inside an incomplete multibyte sequence). -/
theorem writeContent_utf8_boundary (chunks : List (List Nat))
    (hvalid : utf8Valid chunks.flatten = true) :
    (contentsOf ((chunks.foldl SSEWriter.writeContent newSSEWriter).writeFinish).events).flatten
        = chunks.flatten ∧
    ∀ d ∈ contentsOf ((chunks.foldl SSEWriter.writeContent newSSEWriter).writeFinish).events,
      utf8Valid d = true := by
  set wf := chunks.foldl SSEWriter.writeContent newSSEWriter with hwf
  have hinv : WriterInv chunks.flatten wf := by
    have h0 : WriterInv [] newSSEWriter := by
      refine ⟨rfl, ?_, Or.inl rfl⟩
      intro d hd
      simp [contentsOf, newSSEWriter] at hd
    have hmain := writer_fold_inv hvalid chunks [] newSSEWriter h0 (by simp)
    simpa using hmain
  obtain ⟨hjoin, hvalidAll, hbuf⟩ := hinv
  have hFvalid : utf8Valid (contentsOf wf.events).flatten = true := utf8Valid_join hvalidAll
  have hbufValid : utf8Valid wf.contentBuffer = true := by
    have happ := utf8Valid_append hFvalid wf.contentBuffer
    rw [hjoin] at happ
    rw [← happ]
    exact hvalid
  have hbufNil : wf.contentBuffer = [] := by
    rcases hbuf with h | h
    · exact h
    · rw [incompleteChar_not_valid h] at hbufValid
      exact absurd hbufValid (by simp)
  have hreas : wf.reasoningBuffer = [] := by
    rw [hwf, writer_fold_reasoning]
    rfl
  have hflush : wf.flush = wf := by
    unfold SSEWriter.flush
    rw [if_pos hbufNil]
    dsimp only
    rw [if_pos hreas]
  have hfin : (wf.writeFinish).events = wf.events ++ [OAIEvent.finishChunk] := by
    unfold SSEWriter.writeFinish
    rw [hflush]
  have hcontents : contentsOf (wf.writeFinish).events = contentsOf wf.events := by
    rw [hfin, contentsOf_append]
    simp [contentsOf]
  constructor
  · rw [hcontents]
    rw [hbufNil, List.append_nil] at hjoin
    exact hjoin
  · intro d hd
    rw [hcontents] at hd
    exact hvalidAll d hd

/-- Witness for C1: the scenario of spec item S2 — the two characters of a
two-character Chinese greeting split mid-character across three calls. -/
theorem writeContent_utf8_boundary_witness :
    utf8Valid ([[228, 189], [160, 229, 165], [189]] : List (List Nat)).flatten = true ∧
    (contentsOf ((([[228, 189], [160, 229, 165], [189]] : List (List Nat)).foldl
        SSEWriter.writeContent newSSEWriter).writeFinish).events).flatten
        = ([[228, 189], [160, 229, 165], [189]] : List (List Nat)).flatten ∧
    ∀ d ∈ contentsOf ((([[228, 189], [160, 229, 165], [189]] : List (List Nat)).foldl
        SSEWriter.writeContent newSSEWriter).writeFinish).events,
      utf8Valid d = true := by
  refine ⟨by decide, writeContent_utf8_boundary [[228, 189], [160, 229, 165], [189]] (by decide)⟩

/-! ## The Claude SSE emitter (the revision that carries pendingSignature
and emits signature_delta from closeThinkingBlock)

The HTTP writer is again replaced by an event log: every writeSSE call
appends one ClaudeEvent.  Go's random identifier generation is modelled by
fixed placeholder strings, and a tool call's argument map is modelled by
its marshalled JSON text (none for a nil map, which Go marshals to
"null"). -/

namespace Claude

/-- A canonical FunctionCall as carried by a stream part. -/
structure FunctionCall where
  id : String
  name : String
  args : Option String
  deriving Repr, DecidableEq

/-- StreamDataPart: one part handed to the emitter. -/
structure StreamDataPart where
  text : String
  functionCall : Option FunctionCall
  thought : Bool
  thoughtSignature : String
  deriving Repr, DecidableEq

/-- One candidate of a raw stream chunk. -/
structure Candidate where
  parts : List StreamDataPart
  finishReason : String
  deriving Repr, DecidableEq

/-- StreamData: one raw stream chunk (usage metadata is not consumed by the
emitter and is omitted). -/
structure StreamData where
  candidates : List Candidate
  deriving Repr, DecidableEq

/-- core.ToolCallInfo restricted to the fields the emitter reads. -/
structure ToolCallInfo where
  id : String
  name : String
  args : Option String
  thoughtSignature : String
  deriving Repr, DecidableEq

/-- The Usage record handed to Finish. -/
structure Usage where
  promptTokens : Int
  completionTokens : Int
  totalTokens : Int
  deriving Repr, DecidableEq

/-- Block type carried by a content_block_start event. -/
inductive CBlockType
  | text
  | thinking
  | toolUse (id name : String)
  deriving Repr, DecidableEq

/-- Payload of a content_block_delta event. -/
inductive CDeltaType
  | textDelta (s : String)
  | thinkingDelta (s : String)
  | inputJsonDelta (s : String)
  | signatureDelta (s : String)
  deriving Repr, DecidableEq

/-- One emitted Claude SSE event. -/
inductive ClaudeEvent
  | messageStart
  | contentBlockStart (index : Nat) (btype : CBlockType)
  | contentBlockDelta (index : Nat) (delta : CDeltaType)
  | contentBlockStop (index : Nat)
  | messageDelta (stopReason : String) (inputTokens outputTokens : Int)
  | messageStop
  deriving Repr, DecidableEq

/-- EstimateClaudeTokens: the len/4 heuristic with a floor of one token for
nonempty text (len is the UTF-8 byte length of the Go string). -/
def EstimateClaudeTokens (text : String) : Nat :=
  if text = "" then 0
  else
    let count := text.utf8ByteSize / 4
    if count < 1 then 1 else count

/-- GetClaudeStopReason. -/
def GetClaudeStopReason (hasToolCalls : Bool) : String :=
  if hasToolCalls then "tool_use" else "end_turn"

/-- The SSEEmitter state, with the emitted events as a log. -/
structure SSEEmitter where
  requestID : String
  model : String
  inputTokens : Int
  nextIndex : Nat
  textBlockIndex : Option Nat
  thinkingBlockIndex : Option Nat
  finished : Bool
  totalOutputTokens : Int
  hasToolCalls : Bool
  pendingSignature : String
  events : List ClaudeEvent
  deriving Repr, DecidableEq

/-- NewSSEEmitter, with the random request id modelled by a placeholder. -/
def newSSEEmitter (requestID model : String) (inputTokens : Int) : SSEEmitter :=
  { requestID := if requestID = "" then "generated-request-id" else requestID
    model := if model = "" then "claude-proxy" else model
    inputTokens := inputTokens
    nextIndex := 0
    textBlockIndex := none
    thinkingBlockIndex := none
    finished := false
    totalOutputTokens := 0
    hasToolCalls := false
    pendingSignature := ""
    events := [] }

/-- Start: emit message_start. -/
def SSEEmitter.start (e : SSEEmitter) : SSEEmitter :=
  { e with events := e.events ++ [ClaudeEvent.messageStart] }

/-- ensureTextBlock. -/
def SSEEmitter.ensureTextBlock (e : SSEEmitter) : SSEEmitter :=
  match e.textBlockIndex with
  | some _ => e
  | none =>
    { e with
      nextIndex := e.nextIndex + 1
      textBlockIndex := some e.nextIndex
      events := e.events ++ [ClaudeEvent.contentBlockStart e.nextIndex CBlockType.text] }

/-- ensureThinkingBlock. -/
def SSEEmitter.ensureThinkingBlock (e : SSEEmitter) : SSEEmitter :=
  match e.thinkingBlockIndex with
  | some _ => e
  | none =>
    { e with
      nextIndex := e.nextIndex + 1
      thinkingBlockIndex := some e.nextIndex
      events := e.events ++ [ClaudeEvent.contentBlockStart e.nextIndex CBlockType.thinking] }

/-- closeTextBlock. -/
def SSEEmitter.closeTextBlock (e : SSEEmitter) : SSEEmitter :=
  match e.textBlockIndex with
  | none => e
  | some index =>
    { e with
      textBlockIndex := none
      events := e.events ++ [ClaudeEvent.contentBlockStop index] }

/-- closeThinkingBlock: flush a pending signature_delta before the stop. -/
def SSEEmitter.closeThinkingBlock (e : SSEEmitter) : SSEEmitter :=
  match e.thinkingBlockIndex with
  | none => e
  | some index =>
    let e1 := { e with thinkingBlockIndex := none }
    let e2 :=
      if e1.pendingSignature ≠ "" then
        { e1 with
          events := e1.events ++
            [ClaudeEvent.contentBlockDelta index (CDeltaType.signatureDelta e1.pendingSignature)]
          pendingSignature := "" }
      else e1
    { e2 with events := e2.events ++ [ClaudeEvent.contentBlockStop index] }

/-- sendTextLocked. -/
def SSEEmitter.sendText (e : SSEEmitter) (text : String) : SSEEmitter :=
  if text = "" then e
  else
    let e1 := e.closeThinkingBlock
    let e2 := e1.ensureTextBlock
    { e2 with
      totalOutputTokens := e2.totalOutputTokens + EstimateClaudeTokens text
      events := e2.events ++
        [ClaudeEvent.contentBlockDelta (e2.textBlockIndex.getD 0) (CDeltaType.textDelta text)] }

/-- sendThinkingLocked. -/
def SSEEmitter.sendThinking (e : SSEEmitter) (thinking : String) : SSEEmitter :=
  if thinking = "" then e
  else
    let e1 := e.closeTextBlock
    let e2 := e1.ensureThinkingBlock
    { e2 with
      totalOutputTokens := e2.totalOutputTokens + EstimateClaudeTokens thinking
      events := e2.events ++
        [ClaudeEvent.contentBlockDelta (e2.thinkingBlockIndex.getD 0)
          (CDeltaType.thinkingDelta thinking)] }

/-- The marshalled argument text of a tool call, normalised as in the Go
code: an empty or null serialisation becomes the empty object. -/
def normalizeArgs (args : Option String) : String :=
  let s := match args with
    | none => "null"
    | some s => s
  if s = "" ∨ s = "null" then "{}" else s

/-- sendToolCallLocked: a self-contained start/input_json_delta/stop
triplet. -/
def SSEEmitter.sendToolCall (e : SSEEmitter) (tc : ToolCallInfo) : SSEEmitter :=
  let e0 := { e with hasToolCalls := true }
  let e1 := e0.closeTextBlock
  let e2 := e1.closeThinkingBlock
  let index := e2.nextIndex
  let args := normalizeArgs tc.args
  { e2 with
    nextIndex := index + 1
    totalOutputTokens := e2.totalOutputTokens + EstimateClaudeTokens args
    events := e2.events ++
      [ClaudeEvent.contentBlockStart index (CBlockType.toolUse tc.id tc.name),
       ClaudeEvent.contentBlockDelta index (CDeltaType.inputJsonDelta args),
       ClaudeEvent.contentBlockStop index] }

/-- ProcessPart: signature capture happens before sendThinking. -/
def SSEEmitter.processPart (e : SSEEmitter) (part : StreamDataPart) : SSEEmitter :=
  if part.thought then
    let e1 :=
      if part.thoughtSignature ≠ "" then { e with pendingSignature := part.thoughtSignature }
      else e
    e1.sendThinking part.text
  else if part.text ≠ "" then e.sendText part.text
  else
    match part.functionCall with
    | some fc =>
      let id := if fc.id = "" then "generated-tool-call-id" else fc.id
      e.sendToolCall ⟨id, fc.name, fc.args, part.thoughtSignature⟩
    | none => e

/-- The per-part body of ProcessData: signature capture happens after
sendThinking. -/
def SSEEmitter.processDataPart (e : SSEEmitter) (part : StreamDataPart) : SSEEmitter :=
  if part.thought then
    let e1 := e.sendThinking part.text
    if part.thoughtSignature ≠ "" then { e1 with pendingSignature := part.thoughtSignature }
    else e1
  else if part.text ≠ "" then e.sendText part.text
  else
    match part.functionCall with
    | some fc =>
      let id := if fc.id = "" then "generated-tool-call-id" else fc.id
      e.sendToolCall ⟨id, fc.name, fc.args, part.thoughtSignature⟩
    | none => e

/-- ProcessData: handle the parts of the first candidate in order. -/
def SSEEmitter.processData (e : SSEEmitter) (data : StreamData) : SSEEmitter :=
  match data.candidates with
  | [] => e
  | cand :: _ => cand.parts.foldl SSEEmitter.processDataPart e

/-- Finish: close remaining blocks, emit message_delta and message_stop;
idempotent through the finished flag. -/
def SSEEmitter.finish (e : SSEEmitter) (usage : Option Usage) : SSEEmitter :=
  if e.finished then e
  else
    let e0 := { e with finished := true }
    let e1 := e0.closeTextBlock
    let e2 := e1.closeThinkingBlock
    let outputTokens :=
      match usage with
      | some u => if u.completionTokens > 0 then u.completionTokens else e2.totalOutputTokens
      | none => e2.totalOutputTokens
    let inTokens :=
      match usage with
      | some u => if u.promptTokens > 0 then u.promptTokens else e2.inputTokens
      | none => e2.inputTokens
    { e2 with
      events := e2.events ++
        [ClaudeEvent.messageDelta (GetClaudeStopReason e2.hasToolCalls) inTokens outputTokens,
         ClaudeEvent.messageStop] }

/-! ### The block-nesting checker

nestOK certifies exactly the nesting discipline of claim C2: blocks open
with strictly increasing indices taken from a counter (so no index is
opened twice), at most one block is open at a time (no overlap), a
content_block_stop only closes the currently open block (so every start is
matched by exactly one stop, before any other block starts), every
content_block_delta names the currently open block and carries a payload
admissible for that block's type — in particular a signature_delta is
accepted only inside an open thinking block, hence before that block's
content_block_stop. -/

/-- State of the nesting checker. -/
structure NestState where
  openBlock : Option (Nat × CBlockType)
  nextIdx : Nat
  ok : Bool
  deriving Repr, DecidableEq

/-- Which delta payloads may appear inside which block type. -/
def deltaMatches : CBlockType → CDeltaType → Bool
  | CBlockType.text, CDeltaType.textDelta _ => true
  | CBlockType.thinking, CDeltaType.thinkingDelta _ => true
  | CBlockType.thinking, CDeltaType.signatureDelta _ => true
  | CBlockType.toolUse _ _, CDeltaType.inputJsonDelta _ => true
  | _, _ => false

/-- One step of the nesting checker. -/
def stepNest (s : NestState) (e : ClaudeEvent) : NestState :=
  match e with
  | ClaudeEvent.contentBlockStart k b =>
    match s.openBlock with
    | none =>
      if k = s.nextIdx then { openBlock := some (k, b), nextIdx := k + 1, ok := s.ok }
      else { s with ok := false }
    | some _ => { s with ok := false }
  | ClaudeEvent.contentBlockDelta k d =>
    match s.openBlock with
    | some (j, bt) => if k = j ∧ deltaMatches bt d = true then s else { s with ok := false }
    | none => { s with ok := false }
  | ClaudeEvent.contentBlockStop k =>
    match s.openBlock with
    | some (j, _) => if k = j then { s with openBlock := none } else { s with ok := false }
    | none => { s with ok := false }
  | _ => s

/-- The initial checker state. -/
def nestInit : NestState := { openBlock := none, nextIdx := 0, ok := true }

/-- An event sequence is well nested when the checker accepts it and every
opened block has been closed. -/
def nestOK (evs : List ClaudeEvent) : Bool :=
  let f := evs.foldl stepNest nestInit
  f.ok && f.openBlock.isNone

/-- The block the emitter currently has open, as the checker sees it. -/
def emitterOpen (e : SSEEmitter) : Option (Nat × CBlockType) :=
  match e.textBlockIndex, e.thinkingBlockIndex with
  | some i, _ => some (i, CBlockType.text)
  | none, some i => some (i, CBlockType.thinking)
  | none, none => none

/-- Invariant tying the emitter state to the checker state of its emitted
events: at most one block open, and the replayed checker agrees with the
emitter's bookkeeping. -/
def EmitterInv (e : SSEEmitter) : Prop :=
  ¬(e.textBlockIndex.isSome ∧ e.thinkingBlockIndex.isSome) ∧
  e.events.foldl stepNest nestInit =
    { openBlock := emitterOpen e, nextIdx := e.nextIndex, ok := true }

theorem foldl_stepNest_append (evs1 evs2 : List ClaudeEvent) (s : NestState) :
    (evs1 ++ evs2).foldl stepNest s = evs2.foldl stepNest (evs1.foldl stepNest s) :=
  List.foldl_append stepNest s evs1 evs2

theorem closeText_inv {e : SSEEmitter} (h : EmitterInv e) :
    EmitterInv e.closeTextBlock ∧
    e.closeTextBlock.textBlockIndex = none ∧
    e.closeTextBlock.thinkingBlockIndex = e.thinkingBlockIndex ∧
    e.closeTextBlock.nextIndex = e.nextIndex ∧
    e.closeTextBlock.pendingSignature = e.pendingSignature ∧
    e.closeTextBlock.hasToolCalls = e.hasToolCalls ∧
    e.closeTextBlock.finished = e.finished := by
  obtain ⟨hnb, hfold⟩ := h
  cases htb : e.textBlockIndex with
  | none =>
    have heq : e.closeTextBlock = e := by
      unfold SSEEmitter.closeTextBlock
      rw [htb]
    rw [heq]
    exact ⟨⟨hnb, hfold⟩, htb, rfl, rfl, rfl, rfl, rfl⟩
  | some i =>
    have hth : e.thinkingBlockIndex = none := by
      cases hthk : e.thinkingBlockIndex with
      | none => rfl
      | some j => exact absurd ⟨by simp [htb], by simp [hthk]⟩ hnb
    have heq : e.closeTextBlock =
        { e with textBlockIndex := none,
                 events := e.events ++ [ClaudeEvent.contentBlockStop i] } := by
      unfold SSEEmitter.closeTextBlock
      rw [htb]
    have hopen : emitterOpen e = some (i, CBlockType.text) := by
      unfold emitterOpen
      rw [htb]
    rw [heq]
    refine ⟨⟨by simp, ?_⟩, rfl, rfl, rfl, rfl, rfl, rfl⟩
    rw [foldl_stepNest_append, hfold, hopen]
    simp [stepNest, emitterOpen, hth]

theorem closeThinking_inv {e : SSEEmitter} (h : EmitterInv e) :
    EmitterInv e.closeThinkingBlock ∧
    e.closeThinkingBlock.thinkingBlockIndex = none ∧
    e.closeThinkingBlock.textBlockIndex = e.textBlockIndex ∧
    e.closeThinkingBlock.nextIndex = e.nextIndex ∧
    e.closeThinkingBlock.hasToolCalls = e.hasToolCalls ∧
    e.closeThinkingBlock.finished = e.finished := by
  obtain ⟨hnb, hfold⟩ := h
  cases htk : e.thinkingBlockIndex with
  | none =>
    have heq : e.closeThinkingBlock = e := by
      unfold SSEEmitter.closeThinkingBlock
      rw [htk]
    rw [heq]
    exact ⟨⟨hnb, hfold⟩, htk, rfl, rfl, rfl, rfl⟩
  | some i =>
    have htx : e.textBlockIndex = none := by
      cases htxk : e.textBlockIndex with
      | none => rfl
      | some j => exact absurd ⟨by simp [htxk], by simp [htk]⟩ hnb
    have hopen : emitterOpen e = some (i, CBlockType.thinking) := by
      unfold emitterOpen
      rw [htx, htk]
    by_cases hsig : e.pendingSignature ≠ ""
    · have heq : e.closeThinkingBlock =
          { e with thinkingBlockIndex := none, pendingSignature := "",
                   events := e.events ++
                     [ClaudeEvent.contentBlockDelta i
                        (CDeltaType.signatureDelta e.pendingSignature),
                      ClaudeEvent.contentBlockStop i] } := by
        unfold SSEEmitter.closeThinkingBlock
        rw [htk]
        dsimp only
        rw [if_pos hsig]
        simp [List.append_assoc]
      rw [heq]
      refine ⟨⟨by simp [htx], ?_⟩, rfl, rfl, rfl, rfl, rfl⟩
      rw [foldl_stepNest_append, hfold, hopen]
      simp [stepNest, deltaMatches, emitterOpen, htx]
    · have heq : e.closeThinkingBlock =
          { e with thinkingBlockIndex := none,
                   events := e.events ++ [ClaudeEvent.contentBlockStop i] } := by
        unfold SSEEmitter.closeThinkingBlock
        rw [htk]
        dsimp only
        rw [if_neg hsig]
      rw [heq]
      refine ⟨⟨by simp [htx], ?_⟩, rfl, rfl, rfl, rfl, rfl⟩
      rw [foldl_stepNest_append, hfold, hopen]
      simp [stepNest, emitterOpen, htx]

theorem ensureText_inv {e : SSEEmitter} (h : EmitterInv e)
    (hth : e.thinkingBlockIndex = none) :
    EmitterInv e.ensureTextBlock ∧
    (∃ i, e.ensureTextBlock.textBlockIndex = some i) ∧
    e.ensureTextBlock.thinkingBlockIndex = none ∧
    e.ensureTextBlock.finished = e.finished := by
  obtain ⟨hnb, hfold⟩ := h
  cases htb : e.textBlockIndex with
  | some i =>
    have heq : e.ensureTextBlock = e := by
      unfold SSEEmitter.ensureTextBlock
      rw [htb]
    rw [heq]
    exact ⟨⟨hnb, hfold⟩, ⟨i, htb⟩, hth, rfl⟩
  | none =>
    have heq : e.ensureTextBlock =
        { e with nextIndex := e.nextIndex + 1, textBlockIndex := some e.nextIndex,
                 events := e.events ++
                   [ClaudeEvent.contentBlockStart e.nextIndex CBlockType.text] } := by
      unfold SSEEmitter.ensureTextBlock
      rw [htb]
    have hopen : emitterOpen e = none := by
      unfold emitterOpen
      rw [htb, hth]
    rw [heq]
    refine ⟨⟨by simp [hth], ?_⟩, ⟨e.nextIndex, rfl⟩, hth, rfl⟩
    rw [foldl_stepNest_append, hfold, hopen]
    simp [stepNest, emitterOpen]

theorem ensureThinking_inv {e : SSEEmitter} (h : EmitterInv e)
    (htx : e.textBlockIndex = none) :
    EmitterInv e.ensureThinkingBlock ∧
    (∃ i, e.ensureThinkingBlock.thinkingBlockIndex = some i) ∧
    e.ensureThinkingBlock.textBlockIndex = none ∧
    e.ensureThinkingBlock.finished = e.finished := by
  obtain ⟨hnb, hfold⟩ := h
  cases htk : e.thinkingBlockIndex with
  | some i =>
    have heq : e.ensureThinkingBlock = e := by
      unfold SSEEmitter.ensureThinkingBlock
      rw [htk]
    rw [heq]
    exact ⟨⟨hnb, hfold⟩, ⟨i, htk⟩, htx, rfl⟩
  | none =>
    have heq : e.ensureThinkingBlock =
        { e with nextIndex := e.nextIndex + 1, thinkingBlockIndex := some e.nextIndex,
                 events := e.events ++
                   [ClaudeEvent.contentBlockStart e.nextIndex CBlockType.thinking] } := by
      unfold SSEEmitter.ensureThinkingBlock
      rw [htk]
    have hopen : emitterOpen e = none := by
      unfold emitterOpen
      rw [htx, htk]
    rw [heq]
    refine ⟨⟨by simp [htx], ?_⟩, ⟨e.nextIndex, rfl⟩, htx, rfl⟩
    rw [foldl_stepNest_append, hfold, hopen]
    simp [stepNest, emitterOpen, htx]

theorem sendText_inv {e : SSEEmitter} (h : EmitterInv e) (text : String) :
    EmitterInv (e.sendText text) ∧ (e.sendText text).finished = e.finished := by
  by_cases htxt : text = ""
  · have heq : e.sendText text = e := by
      unfold SSEEmitter.sendText
      rw [if_pos htxt]
    rw [heq]
    exact ⟨h, rfl⟩
  · obtain ⟨h1, hth1, htx1, hn1, hhc1, hf1⟩ := closeThinking_inv h
    obtain ⟨h2, ⟨i, hi⟩, hth2, hf2⟩ := ensureText_inv h1 hth1
    obtain ⟨hnb2, hfold2⟩ := h2
    have heq : e.sendText text =
        { e.closeThinkingBlock.ensureTextBlock with
          totalOutputTokens := e.closeThinkingBlock.ensureTextBlock.totalOutputTokens +
            EstimateClaudeTokens text
          events := e.closeThinkingBlock.ensureTextBlock.events ++
            [ClaudeEvent.contentBlockDelta
              (e.closeThinkingBlock.ensureTextBlock.textBlockIndex.getD 0)
              (CDeltaType.textDelta text)] } := by
      unfold SSEEmitter.sendText
      rw [if_neg htxt]
    have hopen2 : emitterOpen e.closeThinkingBlock.ensureTextBlock =
        some (i, CBlockType.text) := by
      unfold emitterOpen
      rw [hi]
    rw [heq]
    refine ⟨⟨by simp [hth2], ?_⟩, by rw [hf2, hf1]⟩
    rw [foldl_stepNest_append, hfold2, hopen2]
    simp [stepNest, deltaMatches, emitterOpen, hi]

theorem sendThinking_inv {e : SSEEmitter} (h : EmitterInv e) (thinking : String) :
    EmitterInv (e.sendThinking thinking) ∧ (e.sendThinking thinking).finished = e.finished := by
  by_cases htxt : thinking = ""
  · have heq : e.sendThinking thinking = e := by
      unfold SSEEmitter.sendThinking
      rw [if_pos htxt]
    rw [heq]
    exact ⟨h, rfl⟩
  · obtain ⟨h1, htx1, hth1, hn1, hs1, hhc1, hf1⟩ := closeText_inv h
    obtain ⟨h2, ⟨i, hi⟩, htx2, hf2⟩ := ensureThinking_inv h1 htx1
    obtain ⟨hnb2, hfold2⟩ := h2
    have heq : e.sendThinking thinking =
        { e.closeTextBlock.ensureThinkingBlock with
          totalOutputTokens := e.closeTextBlock.ensureThinkingBlock.totalOutputTokens +
            EstimateClaudeTokens thinking
          events := e.closeTextBlock.ensureThinkingBlock.events ++
            [ClaudeEvent.contentBlockDelta
              (e.closeTextBlock.ensureThinkingBlock.thinkingBlockIndex.getD 0)
              (CDeltaType.thinkingDelta thinking)] } := by
      unfold SSEEmitter.sendThinking
      rw [if_neg htxt]
    have hopen2 : emitterOpen e.closeTextBlock.ensureThinkingBlock =
        some (i, CBlockType.thinking) := by
      unfold emitterOpen
      rw [hi, htx2]
    rw [heq]
    refine ⟨⟨by simp [htx2], ?_⟩, by rw [hf2, hf1]⟩
    rw [foldl_stepNest_append, hfold2, hopen2]
    simp [stepNest, deltaMatches, emitterOpen, hi, htx2]

theorem sendToolCall_inv {e : SSEEmitter} (h : EmitterInv e) (tc : ToolCallInfo) :
    EmitterInv (e.sendToolCall tc) ∧ (e.sendToolCall tc).finished = e.finished := by
  have h0 : EmitterInv { e with hasToolCalls := true } := ⟨h.1, h.2⟩
  obtain ⟨h1, htx1, hth1, hn1, hs1, hhc1, hf1⟩ := closeText_inv h0
  obtain ⟨h2, hth2, htx2, hn2, hhc2, hf2⟩ := closeThinking_inv h1
  obtain ⟨hnb2, hfold2⟩ := h2
  have heq : e.sendToolCall tc =
      { ({ e with hasToolCalls := true }).closeTextBlock.closeThinkingBlock with
        nextIndex :=
          ({ e with hasToolCalls := true }).closeTextBlock.closeThinkingBlock.nextIndex + 1
        totalOutputTokens :=
          ({ e with hasToolCalls := true }).closeTextBlock.closeThinkingBlock.totalOutputTokens
            + EstimateClaudeTokens (normalizeArgs tc.args)
        events := ({ e with hasToolCalls := true }).closeTextBlock.closeThinkingBlock.events ++
          [ClaudeEvent.contentBlockStart
            ({ e with hasToolCalls := true }).closeTextBlock.closeThinkingBlock.nextIndex
            (CBlockType.toolUse tc.id tc.name),
           ClaudeEvent.contentBlockDelta
            ({ e with hasToolCalls := true }).closeTextBlock.closeThinkingBlock.nextIndex
            (CDeltaType.inputJsonDelta (normalizeArgs tc.args)),
           ClaudeEvent.contentBlockStop
            ({ e with hasToolCalls := true }).closeTextBlock.closeThinkingBlock.nextIndex] } :=
    rfl
  have hopen2 :
      emitterOpen ({ e with hasToolCalls := true }).closeTextBlock.closeThinkingBlock = none := by
    unfold emitterOpen
    rw [htx2, htx1, hth2]
  rw [heq]
  refine ⟨⟨by simp [htx2, htx1, hth2], ?_⟩, by rw [hf2, hf1]⟩
  rw [foldl_stepNest_append, hfold2, hopen2]
  simp [stepNest, deltaMatches, emitterOpen, htx2, htx1, hth2]

theorem processPart_inv {e : SSEEmitter} (h : EmitterInv e) (part : StreamDataPart) :
    EmitterInv (e.processPart part) ∧ (e.processPart part).finished = e.finished := by
  unfold SSEEmitter.processPart
  by_cases h1 : part.thought = true
  · rw [if_pos h1]
    dsimp only
    by_cases hsig : part.thoughtSignature ≠ ""
    · rw [if_pos hsig]
      have h2 : EmitterInv { e with pendingSignature := part.thoughtSignature } := ⟨h.1, h.2⟩
      exact sendThinking_inv h2 part.text
    · rw [if_neg hsig]
      exact sendThinking_inv h part.text
  · rw [if_neg h1]
    by_cases h2 : part.text ≠ ""
    · rw [if_pos h2]
      exact sendText_inv h part.text
    · rw [if_neg h2]
      cases hfc : part.functionCall with
      | some fc =>
        dsimp only
        exact sendToolCall_inv h _
      | none => exact ⟨h, rfl⟩

theorem processDataPart_inv {e : SSEEmitter} (h : EmitterInv e) (part : StreamDataPart) :
    EmitterInv (e.processDataPart part) ∧ (e.processDataPart part).finished = e.finished := by
  unfold SSEEmitter.processDataPart
  by_cases h1 : part.thought = true
  · rw [if_pos h1]
    dsimp only
    obtain ⟨hi, hf⟩ := sendThinking_inv h part.text
    by_cases hsig : part.thoughtSignature ≠ ""
    · rw [if_pos hsig]
      exact ⟨⟨hi.1, hi.2⟩, hf⟩
    · rw [if_neg hsig]
      exact ⟨hi, hf⟩
  · rw [if_neg h1]
    by_cases h2 : part.text ≠ ""
    · rw [if_pos h2]
      exact sendText_inv h part.text
    · rw [if_neg h2]
      cases hfc : part.functionCall with
      | some fc =>
        dsimp only
        exact sendToolCall_inv h _
      | none => exact ⟨h, rfl⟩

theorem processDataPart_fold_inv (parts : List StreamDataPart) :
    ∀ (e : SSEEmitter), EmitterInv e →
      EmitterInv (parts.foldl SSEEmitter.processDataPart e) ∧
      (parts.foldl SSEEmitter.processDataPart e).finished = e.finished := by
  induction parts with
  | nil => exact fun e h => ⟨h, rfl⟩
  | cons p ps ih =>
    intro e h
    obtain ⟨h1, hf1⟩ := processDataPart_inv h p
    obtain ⟨h2, hf2⟩ := ih (e.processDataPart p) h1
    exact ⟨h2, by rw [List.foldl_cons] at *; rw [hf2, hf1]⟩

theorem processData_inv {e : SSEEmitter} (h : EmitterInv e) (data : StreamData) :
    EmitterInv (e.processData data) ∧ (e.processData data).finished = e.finished := by
  unfold SSEEmitter.processData
  cases data.candidates with
  | nil => exact ⟨h, rfl⟩
  | cons cand rest => exact processDataPart_fold_inv cand.parts e h

/-- The calls a client may make on the emitter before Finish. -/
inductive EmitterOp
  | part (p : StreamDataPart)
  | data (d : StreamData)
  deriving Repr

/-- Apply one client call. -/
def SSEEmitter.applyOp (e : SSEEmitter) : EmitterOp → SSEEmitter
  | EmitterOp.part p => e.processPart p
  | EmitterOp.data d => e.processData d

theorem applyOp_fold_inv (ops : List EmitterOp) :
    ∀ (e : SSEEmitter), EmitterInv e →
      EmitterInv (ops.foldl SSEEmitter.applyOp e) ∧
      (ops.foldl SSEEmitter.applyOp e).finished = e.finished := by
  induction ops with
  | nil => exact fun e h => ⟨h, rfl⟩
  | cons op rest ih =>
    intro e h
    have hstep : EmitterInv (e.applyOp op) ∧ (e.applyOp op).finished = e.finished := by
      cases op with
      | part p => exact processPart_inv h p
      | data d => exact processData_inv h d
    obtain ⟨h1, hf1⟩ := hstep
    obtain ⟨h2, hf2⟩ := ih (e.applyOp op) h1
    exact ⟨h2, by rw [List.foldl_cons] at *; rw [hf2, hf1]⟩

theorem finish_nest {e : SSEEmitter} (h : EmitterInv e) (hf : e.finished = false)
    (usage : Option Usage) :
    nestOK (e.finish usage).events = true := by
  have h0 : EmitterInv { e with finished := true } := ⟨h.1, h.2⟩
  obtain ⟨h1, htx1, hth1, hn1, hs1, hhc1, hf1⟩ := closeText_inv h0
  obtain ⟨h2, hth2, htx2, hn2, hhc2, hf2⟩ := closeThinking_inv h1
  obtain ⟨hnb2, hfold2⟩ := h2
  have heq : e.finish usage =
      { ({ e with finished := true }).closeTextBlock.closeThinkingBlock with
        events := ({ e with finished := true }).closeTextBlock.closeThinkingBlock.events ++
          [ClaudeEvent.messageDelta
            (GetClaudeStopReason
              ({ e with finished := true }).closeTextBlock.closeThinkingBlock.hasToolCalls)
            (match usage with
             | some u => if u.promptTokens > 0 then u.promptTokens
                 else ({ e with finished := true
                       }).closeTextBlock.closeThinkingBlock.inputTokens
             | none => ({ e with finished := true
                       }).closeTextBlock.closeThinkingBlock.inputTokens)
            (match usage with
             | some u => if u.completionTokens > 0 then u.completionTokens
                 else ({ e with finished := true
                       }).closeTextBlock.closeThinkingBlock.totalOutputTokens
             | none => ({ e with finished := true
                       }).closeTextBlock.closeThinkingBlock.totalOutputTokens),
           ClaudeEvent.messageStop] } := by
    unfold SSEEmitter.finish
    rw [if_neg (by rw [hf]; simp)]
  have hopen2 :
      emitterOpen ({ e with finished := true }).closeTextBlock.closeThinkingBlock = none := by
    unfold emitterOpen
    rw [htx2, htx1, hth2]
  rw [heq]
  unfold nestOK
  rw [foldl_stepNest_append, hfold2, hopen2]
  simp [stepNest]

/-- Claim C2: for every sequence of ProcessPart and ProcessData calls
followed by Finish on a fresh Claude SSE emitter, the emitted event
sequence is a valid nesting: every content_block_start at index k is
matched by exactly one content_block_stop at index k, block indices are
assigned from a strictly increasing counter (so no index is opened twice
and no two blocks are open at once), every content_block_delta for index k
lies between that block's start and stop and carries a payload admissible
for the block's type, and a signature_delta is accepted only inside an
open thinking block, hence before that block's content_block_stop.  All of
this is certified by the nestOK checker. -/
theorem claude_sse_nesting (reqId model : String) (inputTokens : Int)
    (ops : List EmitterOp) (usage : Option Usage) :
    nestOK (((ops.foldl SSEEmitter.applyOp
      (newSSEEmitter reqId model inputTokens))).finish usage).events = true := by
  have h0 : EmitterInv (newSSEEmitter reqId model inputTokens) := by
    constructor
    · simp [newSSEEmitter]
    · simp [newSSEEmitter, emitterOpen, nestInit]
  obtain ⟨hinv, hfin⟩ := applyOp_fold_inv ops _ h0
  exact finish_nest hinv (by rw [hfin]; rfl) usage

/-- Claim C10: Finish is idempotent.  A second Finish call, with any usage
argument, returns the emitter unchanged and emits nothing; a call on an
already-finished emitter is the identity; and the first call closes the
open blocks and then emits exactly one message_delta followed by one
message_stop. -/
theorem closeTextBlock_finished (e : SSEEmitter) : e.closeTextBlock.finished = e.finished := by
  unfold SSEEmitter.closeTextBlock
  cases e.textBlockIndex <;> rfl

theorem closeThinkingBlock_finished (e : SSEEmitter) :
    e.closeThinkingBlock.finished = e.finished := by
  unfold SSEEmitter.closeThinkingBlock
  cases e.thinkingBlockIndex
  · rfl
  · dsimp only
    split_ifs <;> rfl

theorem finish_finished {e : SSEEmitter} (hf : e.finished = false) (u : Option Usage) :
    (e.finish u).finished = true := by
  unfold SSEEmitter.finish
  rw [if_neg (by rw [hf]; simp)]
  dsimp only
  show ({ e with finished := true }).closeTextBlock.closeThinkingBlock.finished = true
  rw [closeThinkingBlock_finished, closeTextBlock_finished]

theorem claude_finish_idempotent (e : SSEEmitter) (u1 u2 : Option Usage) :
    (e.finish u1).finish u2 = e.finish u1 ∧
    (e.finished = true → e.finish u1 = e) ∧
    (e.finished = false →
      (e.finish u1).finished = true ∧
      ∃ stopReason inT outT,
        (e.finish u1).events =
          ({ e with finished := true }).closeTextBlock.closeThinkingBlock.events ++
            [ClaudeEvent.messageDelta stopReason inT outT, ClaudeEvent.messageStop]) := by
  have hid : ∀ (e2 : SSEEmitter) (u : Option Usage), e2.finished = true → e2.finish u = e2 := by
    intro e2 u hf
    unfold SSEEmitter.finish
    rw [if_pos hf]
  by_cases hf : e.finished = true
  · refine ⟨?_, fun _ => hid e u1 hf, fun hcontra => by rw [hf] at hcontra; cases hcontra⟩
    rw [hid e u1 hf, hid e u2 hf]
  · have hf0 : e.finished = false := by
      cases hfin : e.finished
      · rfl
      · exact absurd hfin hf
    have hfin1 : (e.finish u1).finished = true := finish_finished hf0 u1
    refine ⟨hid _ u2 hfin1, fun hc => absurd hc hf, fun _ => ⟨hfin1, ?_⟩⟩
    unfold SSEEmitter.finish
    rw [if_neg (by rw [hf0]; simp)]
    dsimp only
    exact ⟨_, _, _, rfl⟩

/-- Witness for C10 at a concrete emitter run. -/
theorem claude_finish_idempotent_witness :
    (((newSSEEmitter "r" "m" 7).sendText "hi").finish none).finish (some ⟨1, 2, 3⟩) =
      ((newSSEEmitter "r" "m" 7).sendText "hi").finish none ∧
    (((newSSEEmitter "r" "m" 7).sendText "hi").finished = false →
      ((((newSSEEmitter "r" "m" 7).sendText "hi").finish none).finished = true ∧
        ∃ stopReason inT outT,
          (((newSSEEmitter "r" "m" 7).sendText "hi").finish none).events =
            ({ (newSSEEmitter "r" "m" 7).sendText "hi" with finished := true
              }).closeTextBlock.closeThinkingBlock.events ++
              [ClaudeEvent.messageDelta stopReason inT outT, ClaudeEvent.messageStop])) := by
  have h := claude_finish_idempotent ((newSSEEmitter "r" "m" 7).sendText "hi") none
    (some ⟨1, 2, 3⟩)
  exact ⟨h.1, h.2.2⟩

end Claude

/-! ## The credential store (Account, IsExpired, GetToken)

Time is integer milliseconds (Go int64 arithmetic on realistic magnitudes,
no wraparound).  Persistence (saveUnlocked) is I/O and not modelled; the
OAuth refresh callback installed through SetRefreshFunc is an explicit
argument returning the mutated account on success and none on error. -/

namespace Store

/-- An account of the credential pool. -/
structure Account where
  accessToken : String
  refreshToken : String
  expiresIn : Int
  timestamp : Int
  projectID : String
  email : String
  enable : Bool
  deriving Repr, DecidableEq

/-- IsExpired: unconditionally true on a zero timestamp or zero expiresIn,
otherwise compares now against issuance plus lifetime minus the five-minute
early-refresh margin. -/
def Account.isExpired (a : Account) (nowMs : Int) : Bool :=
  if a.timestamp = 0 ∨ a.expiresIn = 0 then true
  else nowMs ≥ a.timestamp + a.expiresIn * 1000 - 300000

/-- Placeholder for an out-of-range list access (Go would panic; GetToken
only indexes within range). -/
def defaultAccount : Account :=
  { accessToken := "", refreshToken := "", expiresIn := 0, timestamp := 0,
    projectID := "", email := "", enable := false }

/-- The mutable store state: the account list and the round-robin cursor. -/
structure AccountStoreSt where
  accounts : List Account
  currentIndex : Nat
  deriving Repr, DecidableEq

/-- The attempts loop of GetToken: read the cursor's account, advance the
cursor modulo the list length, skip disabled accounts, refresh expired ones
(skipping on refresh failure, storing the refreshed account on success),
and return the first usable account. -/
def getTokenGo (refresh : Account → Option Account) (nowMs : Int) :
    Nat → AccountStoreSt → Option Account × AccountStoreSt
  | 0, st => (none, st)
  | attempts + 1, st =>
    let i := st.currentIndex
    let account := st.accounts.getD i defaultAccount
    let st1 := { st with currentIndex := (i + 1) % st.accounts.length }
    if account.enable = false then getTokenGo refresh nowMs attempts st1
    else if account.isExpired nowMs then
      match refresh account with
      | none => getTokenGo refresh nowMs attempts st1
      | some a2 => (some a2, { st1 with accounts := st1.accounts.set i a2 })
    else (some account, st1)

/-- GetToken: fail on an empty pool, otherwise run up to one full cycle. -/
def GetToken (refresh : Account → Option Account) (nowMs : Int)
    (st : AccountStoreSt) : Option Account × AccountStoreSt :=
  if st.accounts.length = 0 then (none, st)
  else getTokenGo refresh nowMs st.accounts.length st

/-- A run of consecutive GetToken calls, recording the emails of the
returned accounts. -/
def getTokenRun (refresh : Account → Option Account) (nowMs : Int) :
    Nat → AccountStoreSt → List (Option String) × AccountStoreSt
  | 0, st => ([], st)
  | k + 1, st =>
    let r := GetToken refresh nowMs st
    let rest := getTokenRun refresh nowMs k r.2
    ((r.1.map Account.email) :: rest.1, rest.2)

/-- A fresh enabled credential that is far from expiry at time 1000. -/
def mkAcc (email : String) : Account :=
  { accessToken := "t", refreshToken := "r", expiresIn := 1000000000,
    timestamp := 1, projectID := "", email := email, enable := true }

theorem getTokenGo_all_unusable (refresh : Account → Option Account) (nowMs : Int) :
    ∀ (fuel : Nat) (st : AccountStoreSt), st.currentIndex < st.accounts.length →
      (∀ a ∈ st.accounts,
        a.enable = false ∨ (a.isExpired nowMs = true ∧ refresh a = none)) →
      (getTokenGo refresh nowMs fuel st).1 = none := by
  intro fuel
  induction fuel with
  | zero => intro st _ _; rfl
  | succ n ih =>
    intro st hidx hall
    have hmem : st.accounts.getD st.currentIndex defaultAccount ∈ st.accounts := by
      rw [List.getD_eq_getElem st.accounts defaultAccount hidx]
      exact List.getElem_mem hidx
    have hmod : (st.currentIndex + 1) % st.accounts.length < st.accounts.length :=
      Nat.mod_lt _ (by omega)
    show (getTokenGo refresh nowMs (n + 1) st).1 = none
    unfold getTokenGo
    dsimp only
    cases henable : (st.accounts.getD st.currentIndex defaultAccount).enable with
    | false =>
      rw [if_pos rfl]
      exact ih _ hmod hall
    | true =>
      rcases hall _ hmem with hdis | ⟨hexp, href⟩
      · rw [henable] at hdis
        cases hdis
      · rw [if_neg (by simp), if_pos hexp, href]
        exact ih _ hmod hall

/-- An expired credential (at time 1000000) whose refresh will fail. -/
def staleAcc : Account :=
  { accessToken := "old", refreshToken := "r", expiresIn := 1,
    timestamp := 1, projectID := "", email := "stale", enable := true }

example :
    (getTokenRun (fun _ => none) 1000 9
      { accounts := [mkAcc "A", mkAcc "B", mkAcc "C"], currentIndex := 0 }).1 =
    [some "A", some "B", some "C", some "A", some "B", some "C",
     some "A", some "B", some "C"] := by decide

/-- Claim C5: round-robin credential rotation.  With three enabled
non-expired credentials, nine consecutive GetToken calls return them in a
fixed cyclic order; after disabling the second, six calls alternate
between the other two; if every account is disabled, or expired with a
failing refresh, a full cycle yields none and GetToken fails; and in the
S5 scenario (one expired account whose refresh fails plus one valid one)
the valid account is returned with the stale one left enabled and
unchanged. -/
theorem credential_roundrobin :
    (getTokenRun (fun _ => none) 1000 9
        { accounts := [mkAcc "A", mkAcc "B", mkAcc "C"], currentIndex := 0 }).1 =
      [some "A", some "B", some "C", some "A", some "B", some "C",
       some "A", some "B", some "C"] ∧
    (getTokenRun (fun _ => none) 1000 6
        { accounts := [mkAcc "A", { mkAcc "B" with enable := false }, mkAcc "C"],
          currentIndex := 0 }).1 =
      [some "A", some "C", some "A", some "C", some "A", some "C"] ∧
    (∀ (refresh : Account → Option Account) (nowMs : Int) (st : AccountStoreSt),
      st.currentIndex < st.accounts.length →
      (∀ a ∈ st.accounts,
        a.enable = false ∨ (a.isExpired nowMs = true ∧ refresh a = none)) →
      (GetToken refresh nowMs st).1 = none) ∧
    (GetToken (fun _ => none) 1000000
        { accounts := [staleAcc, mkAcc "V"], currentIndex := 0 }).1 = some (mkAcc "V") ∧
    (GetToken (fun _ => none) 1000000
        { accounts := [staleAcc, mkAcc "V"], currentIndex := 0 }).2.accounts =
      [staleAcc, mkAcc "V"] := by
  refine ⟨by decide, by decide, ?_, by decide, by decide⟩
  intro refresh nowMs st hidx hall
  unfold GetToken
  rw [if_neg (by omega)]
  exact getTokenGo_all_unusable refresh nowMs st.accounts.length st hidx hall

/-- Witness for C5: the general no-usable-credential conjunct applied to a
concrete pool holding one disabled account. -/
theorem credential_roundrobin_witness :
    (GetToken (fun _ => none) 0
      { accounts := [{ mkAcc "D" with enable := false }], currentIndex := 0 }).1 = none := by
  refine credential_roundrobin.2.2.1 (fun _ => none) 0 _ (by decide) ?_
  intro a ha
  left
  simp only [List.mem_singleton] at ha
  rw [ha]

/-- Claim C6 counterexample: IsExpired is not equivalent to the pure
timestamp formula for all field values.  The account below with expiresIn
zero but a far-future timestamp is reported expired by the code at time
1000 although the claimed formula is false there. -/
theorem isExpired_formula_counterexample :
    ({ accessToken := "", refreshToken := "", expiresIn := 0, timestamp := 2000000,
       projectID := "", email := "", enable := true } : Account).isExpired 1000 = true ∧
    ¬((1000 : Int) ≥ 2000000 + 0 * 1000 - 300000) := by
  exact ⟨by decide, by decide⟩

/-- Claim C6 (amended): IsExpired returns true exactly when the timestamp
is zero, or expiresIn is zero, or now is at or past
timestamp + expiresIn*1000 - 300000 milliseconds. -/
theorem isExpired_formula (a : Account) (nowMs : Int) :
    a.isExpired nowMs = true ↔
      (a.timestamp = 0 ∨ a.expiresIn = 0 ∨
        nowMs ≥ a.timestamp + a.expiresIn * 1000 - 300000) := by
  unfold Account.isExpired
  split_ifs with h
  · simp only [true_iff]
    tauto
  · push_neg at h
    simp only [decide_eq_true_eq]
    constructor
    · intro h2
      exact Or.inr (Or.inr h2)
    · rintro (h2 | h2 | h2)
      · exact absurd h2 h.1
      · exact absurd h2 h.2
      · exact h2

/-- Witness for the amended C6 at a concrete credential and time. -/
theorem isExpired_formula_witness :
    (mkAcc "W").isExpired 2000000000000 = true ↔
      ((mkAcc "W").timestamp = 0 ∨ (mkAcc "W").expiresIn = 0 ∨
        (2000000000000 : Int) ≥ (mkAcc "W").timestamp + (mkAcc "W").expiresIn * 1000
          - 300000) :=
  isExpired_formula (mkAcc "W") 2000000000000

end Store

/-! ## The upstream client retry machinery (APIError, ExtractErrorDetails,
WithRetry)

Durations are modelled in integer milliseconds.  The operation passed to
WithRetry is a function from the attempt number to its outcome (none means
success); the decoded upstream error body is modelled after the struct the
Go code unmarshals into, with the regex-parsed RetryInfo delay carried as
an already-parsed optional millisecond value. -/

namespace Vertex

/-- The APIError taxonomy. -/
structure APIError where
  status : Int
  message : String
  retryDelayMs : Nat
  disableToken : Bool
  deriving Repr, DecidableEq

/-- A Go error as seen by WithRetry: either an APIError or any other
error. -/
inductive GoError
  | apiError (e : APIError)
  | otherError (msg : String)
  deriving Repr, DecidableEq

/-- The retry-relevant configuration fields. -/
structure RetryConfig where
  retryStatusCodes : List Int
  retryMaxAttempts : Nat
  deriving Repr, DecidableEq

/-- The configuration defaults: RETRY_STATUS_CODES 429,500 and
RETRY_MAX_ATTEMPTS 3. -/
def defaultRetryConfig : RetryConfig :=
  { retryStatusCodes := [429, 500], retryMaxAttempts := 3 }

/-- The observable outcome of WithRetry: the returned error (none for
success), how many times the operation ran, and the total time slept. -/
structure RetryOutcome where
  result : Option GoError
  calls : Nat
  totalWaitMs : Nat
  deriving Repr, DecidableEq

/-- The attempt loop of WithRetry, with the number of remaining loop
iterations as the structural counter (the loop runs while
attempt < RetryMaxAttempts, so it is entered with the full attempt
budget).  Context cancellation only shortens the sleep and is not
modelled. -/
def withRetryLoop (cfg : RetryConfig) (op : Nat → Option GoError) :
    Nat → Nat → Option GoError → Nat → Nat → RetryOutcome
  | 0, _, lastErr, calls, waited => ⟨lastErr, calls, waited⟩
  | remaining + 1, attempt, _, calls, waited =>
    match op attempt with
    | none => ⟨none, calls + 1, waited⟩
    | some err =>
      match err with
      | GoError.otherError m => ⟨some (GoError.otherError m), calls + 1, waited⟩
      | GoError.apiError a =>
        if a.status = 401 then ⟨some (GoError.apiError a), calls + 1, waited⟩
        else if cfg.retryStatusCodes.contains a.status = false ∨
            attempt = cfg.retryMaxAttempts - 1 then
          ⟨some (GoError.apiError a), calls + 1, waited⟩
        else
          withRetryLoop cfg op remaining (attempt + 1) (some (GoError.apiError a)) (calls + 1)
            (waited + (if a.retryDelayMs = 0 then min (1000 * (attempt + 1)) 5000
                       else a.retryDelayMs))

/-- WithRetry. -/
def WithRetry (cfg : RetryConfig) (op : Nat → Option GoError) : RetryOutcome :=
  withRetryLoop cfg op cfg.retryMaxAttempts 0 none 0 0

/-- The decoded error.code field: a JSON string, a JSON number, or
absent/other. -/
inductive ErrCode
  | str (s : String)
  | num (n : Int)
  | absent
  deriving Repr, DecidableEq

/-- One entry of error.details, reduced to what the Go code reads: whether
its type mentions RetryInfo, and the regex-parsed retryDelay (in ms). -/
structure ErrDetail where
  typeContainsRetryInfo : Bool
  retryDelayMs : Option Nat
  deriving Repr, DecidableEq

/-- The decoded upstream error body. -/
structure ErrBody where
  code : ErrCode
  message : String
  details : List ErrDetail
  deriving Repr, DecidableEq

/-- Go strings.ToUpper, on the ASCII strings this code compares. -/
def goToUpper (s : String) : String := String.mk (s.data.map Char.toUpper)

/-- One step of the details loop of ExtractErrorDetails. -/
def applyDetail (acc : APIError) (d : ErrDetail) : APIError :=
  if d.typeContainsRetryInfo then
    match d.retryDelayMs with
    | some ms => { acc with retryDelayMs := ms }
    | none => acc
  else acc

/-- ExtractErrorDetails: map the body onto an APIError — string codes
RESOURCE_EXHAUSTED, INTERNAL and UNAUTHENTICATED become 429, 500 and 401
(the last disabling the token), numeric codes are taken verbatim, and the
last RetryInfo detail supplies the retry delay.  none models a body that
fails to unmarshal. -/
def extractErrorDetails (httpStatus : Int) (body : Option ErrBody) : APIError :=
  let base : APIError :=
    { status := httpStatus, message := "Unknown error", retryDelayMs := 0,
      disableToken := false }
  match body with
  | none => base
  | some b =>
    let e1 := { base with message := b.message }
    let e2 :=
      match b.code with
      | ErrCode.str s =>
        if goToUpper s = "RESOURCE_EXHAUSTED" then { e1 with status := 429 }
        else if goToUpper s = "INTERNAL" then { e1 with status := 500 }
        else if goToUpper s = "UNAUTHENTICATED" then
          { e1 with status := 401, disableToken := true }
        else e1
      | ErrCode.num n => { e1 with status := n }
      | ErrCode.absent => e1
    b.details.foldl applyDetail e2

theorem applyDetail_fold_fields (ds : List ErrDetail) :
    ∀ acc : APIError,
      (ds.foldl applyDetail acc).status = acc.status ∧
      (ds.foldl applyDetail acc).disableToken = acc.disableToken := by
  induction ds with
  | nil => exact fun acc => ⟨rfl, rfl⟩
  | cons d ds ih =>
    intro acc
    have hstep : (applyDetail acc d).status = acc.status ∧
        (applyDetail acc d).disableToken = acc.disableToken := by
      unfold applyDetail
      split_ifs
      · cases d.retryDelayMs <;> exact ⟨rfl, rfl⟩
      · exact ⟨rfl, rfl⟩
    obtain ⟨h1, h2⟩ := ih (applyDetail acc d)
    rw [List.foldl_cons]
    exact ⟨h1.trans hstep.1, h2.trans hstep.2⟩

/-- Counterexample for claim C4: an APIError with status 401 whose
disableToken flag is false is reachable (an HTTP 401 whose body fails to
unmarshal), and WithRetry returns it after one call without setting the
flag — so a 401 failure does not in general return an error with the
disableToken flag set. -/
theorem withRetry_401_counterexample :
    (extractErrorDetails 401 none).status = 401 ∧
    (extractErrorDetails 401 none).disableToken = false ∧
    WithRetry defaultRetryConfig
        (fun _ => some (GoError.apiError (extractErrorDetails 401 none))) =
      ⟨some (GoError.apiError (extractErrorDetails 401 none)), 1, 0⟩ ∧
    ((WithRetry defaultRetryConfig
        (fun _ => some (GoError.apiError (extractErrorDetails 401 none)))).result.map
      (fun err => match err with
        | GoError.apiError a => a.disableToken
        | GoError.otherError _ => false)) = some false := by
  refine ⟨rfl, rfl, ?_, ?_⟩ <;> decide

/-- Claim C4 (amended): WithRetry invokes the operation exactly once and
returns the error unchanged when the error is not an APIError, is an
APIError with status 401, or is an APIError whose status is not in the
configured retryable set; on a retryable status it waits the error's
retryDelay if nonzero and otherwise min((attempt+1) seconds, 5 seconds),
then re-invokes the operation, so an operation failing once retryably and
then succeeding yields success after exactly two calls with the
corresponding wait.  The disableToken flag on the returned error is
exactly the flag of the operation's error; ExtractErrorDetails sets it
(together with status 401) precisely for the string code UNAUTHENTICATED. -/
theorem withRetry_policy :
    (∀ (cfg : RetryConfig) (op : Nat → Option GoError) (m : String),
      0 < cfg.retryMaxAttempts → op 0 = some (GoError.otherError m) →
      WithRetry cfg op = ⟨some (GoError.otherError m), 1, 0⟩) ∧
    (∀ (cfg : RetryConfig) (op : Nat → Option GoError) (a : APIError),
      0 < cfg.retryMaxAttempts → a.status = 401 → op 0 = some (GoError.apiError a) →
      WithRetry cfg op = ⟨some (GoError.apiError a), 1, 0⟩) ∧
    (∀ (cfg : RetryConfig) (op : Nat → Option GoError) (a : APIError),
      0 < cfg.retryMaxAttempts → a.status ≠ 401 →
      cfg.retryStatusCodes.contains a.status = false →
      op 0 = some (GoError.apiError a) →
      WithRetry cfg op = ⟨some (GoError.apiError a), 1, 0⟩) ∧
    (∀ (cfg : RetryConfig) (op : Nat → Option GoError) (a : APIError),
      2 ≤ cfg.retryMaxAttempts → a.status ≠ 401 →
      cfg.retryStatusCodes.contains a.status = true →
      op 0 = some (GoError.apiError a) → op 1 = none →
      WithRetry cfg op =
        ⟨none, 2, if a.retryDelayMs = 0 then 1000 else a.retryDelayMs⟩) ∧
    (∀ (st : Int) (b : ErrBody), b.code = ErrCode.str "UNAUTHENTICATED" →
      (extractErrorDetails st (some b)).status = 401 ∧
      (extractErrorDetails st (some b)).disableToken = true) ∧
    (∀ (st : Int) (body : Option ErrBody),
      (extractErrorDetails st body).disableToken = true →
      ∃ b s, body = some b ∧ b.code = ErrCode.str s ∧ goToUpper s = "UNAUTHENTICATED") := by
  refine ⟨?_, ?_, ?_, ?_, ?_, ?_⟩
  · intro cfg op m hmax hop
    obtain ⟨r, hr⟩ : ∃ r, cfg.retryMaxAttempts = r + 1 := ⟨cfg.retryMaxAttempts - 1, by omega⟩
    unfold WithRetry
    rw [hr]
    unfold withRetryLoop
    rw [hop]
  · intro cfg op a hmax hstat hop
    obtain ⟨r, hr⟩ : ∃ r, cfg.retryMaxAttempts = r + 1 := ⟨cfg.retryMaxAttempts - 1, by omega⟩
    unfold WithRetry
    rw [hr]
    unfold withRetryLoop
    rw [hop]
    dsimp only
    rw [if_pos hstat]
  · intro cfg op a hmax hstat hcode hop
    obtain ⟨r, hr⟩ : ∃ r, cfg.retryMaxAttempts = r + 1 := ⟨cfg.retryMaxAttempts - 1, by omega⟩
    unfold WithRetry
    rw [hr]
    unfold withRetryLoop
    rw [hop]
    dsimp only
    rw [if_neg hstat, if_pos (Or.inl hcode)]
  · intro cfg op a hmax hstat hcode hop0 hop1
    obtain ⟨r, hr⟩ : ∃ r, cfg.retryMaxAttempts = r + 2 := ⟨cfg.retryMaxAttempts - 2, by omega⟩
    unfold WithRetry
    rw [hr]
    unfold withRetryLoop
    rw [hop0]
    dsimp only
    rw [if_neg hstat, if_neg (by
      rintro (hc | hc)
      · rw [hcode] at hc
        cases hc
      · omega)]
    unfold withRetryLoop
    rw [hop1]
    norm_num
  · intro st b hcode
    unfold extractErrorDetails
    dsimp only
    rw [hcode]
    dsimp only
    rw [if_neg (by decide), if_neg (by decide), if_pos (by decide)]
    obtain ⟨h1, h2⟩ := applyDetail_fold_fields b.details
      { status := 401, message := b.message, retryDelayMs := 0, disableToken := true }
    exact ⟨h1, h2⟩
  · intro st body hdis
    match body with
    | none =>
      rw [show (extractErrorDetails st none).disableToken = false from rfl] at hdis
      cases hdis
    | some b =>
      unfold extractErrorDetails at hdis
      dsimp only at hdis
      match hcode : b.code with
      | ErrCode.str s =>
        rw [hcode] at hdis
        dsimp only at hdis
        split_ifs at hdis with hs1 hs2 hs3
        · obtain ⟨-, h2⟩ := applyDetail_fold_fields b.details
            { status := 429, message := b.message, retryDelayMs := 0, disableToken := false }
          rw [h2] at hdis
          cases hdis
        · obtain ⟨-, h2⟩ := applyDetail_fold_fields b.details
            { status := 500, message := b.message, retryDelayMs := 0, disableToken := false }
          rw [h2] at hdis
          cases hdis
        · exact ⟨b, s, rfl, hcode, hs3⟩
        · obtain ⟨-, h2⟩ := applyDetail_fold_fields b.details
            { status := st, message := b.message, retryDelayMs := 0, disableToken := false }
          rw [h2] at hdis
          cases hdis
      | ErrCode.num n =>
        rw [hcode] at hdis
        dsimp only at hdis
        obtain ⟨-, h2⟩ := applyDetail_fold_fields b.details
          { status := n, message := b.message, retryDelayMs := 0, disableToken := false }
        rw [h2] at hdis
        cases hdis
      | ErrCode.absent =>
        rw [hcode] at hdis
        dsimp only at hdis
        obtain ⟨-, h2⟩ := applyDetail_fold_fields b.details
          { status := st, message := b.message, retryDelayMs := 0, disableToken := false }
        rw [h2] at hdis
        cases hdis

/-- Witness for C4 (amended) at the spec's concrete scenario: an operation
failing once with a 429 APIError carrying a 500 ms retry delay and
succeeding on the second call completes with success, exactly two calls
and a wait of at least 500 ms. -/
theorem withRetry_policy_witness :
    WithRetry defaultRetryConfig
        (fun n => if n = 0 then
          some (GoError.apiError ⟨429, "quota", 500, false⟩) else none) =
      ⟨none, 2, 500⟩ ∧ (500 : Nat) ≥ 500 := by
  have h := withRetry_policy.2.2.2.1 defaultRetryConfig
    (fun n => if n = 0 then some (GoError.apiError ⟨429, "quota", 500, false⟩) else none)
    ⟨429, "quota", 500, false⟩ (by decide) (by decide) (by decide) rfl rfl
  refine ⟨?_, le_refl 500⟩
  rw [h]
  rfl

end Vertex

/-!
## Core model helpers (src/internal/core/models.go)

Go's `strings.HasPrefix`, `strings.HasSuffix`, `strings.Contains` and
`strings.ToLower` are modelled over the character lists of Lean strings so
that they compute by kernel reduction.  `ModelAliasMap` is the two-entry
bypass alias map; map lookup is association-list lookup.
-/

namespace Core

def goHasSuffix (s suffix : String) : Bool := suffix.data.isSuffixOf s.data

def goHasPrefix (s pre : String) : Bool := pre.data.isPrefixOf s.data

def goToLower (s : String) : String := String.mk (s.data.map Char.toLower)

def infixAt : List Char → List Char → Bool
  | sub, [] => sub.isEmpty
  | sub, c :: rest => sub.isPrefixOf (c :: rest) || infixAt sub rest

def strContains (s sub : String) : Bool := infixAt sub.data s.data

def ModelAliasMap : List (String × String) :=
  [("gemini-3-pro-high-bypass", "gemini-3-pro-high"),
   ("gemini-3-pro-low-bypass", "gemini-3-pro-low")]

def lookupAlias (modelName : String) : Option String :=
  (ModelAliasMap.find? (fun p => p.1 == modelName)).map (fun p => p.2)

def ResolveModelName (modelName : String) : String :=
  match lookupAlias modelName with
  | some actual => actual
  | none => modelName

def IsClaudeModel (modelName : String) : Bool :=
  strContains (goToLower modelName) "claude"

structure ThinkingConfig where
  includeThoughts : Bool
  thinkingBudget : Int
  thinkingLevel : String
deriving DecidableEq, Repr

def ShouldEnableThinking (modelName : String)
    (thinkingConfig : Option ThinkingConfig) : Bool :=
  if (lookupAlias modelName).isSome then false
  else if goHasSuffix modelName "-thinking" then true
  else if goHasPrefix modelName "gemini-3-pro-" then true
  else match thinkingConfig with
    | some tc => tc.includeThoughts
    | none => false

def BuildThinkingConfig (modelName : String) : ThinkingConfig :=
  if goHasPrefix (ResolveModelName modelName) "gemini-3-pro-" then
    { includeThoughts := true, thinkingBudget := 0, thinkingLevel := "" }
  else if IsClaudeModel (ResolveModelName modelName) then
    { includeThoughts := true, thinkingBudget := 32000, thinkingLevel := "" }
  else
    { includeThoughts := true, thinkingBudget := 1024, thinkingLevel := "" }

def DefaultStopSequences : List String :=
  ["<|user|>", "<|bot|>", "<|context_request|>", "<|endoftext|>",
   "<|end_of_turn|>"]

end Core

/-!
## Claude-to-Antigravity generation config (src/unnamed/part_004)

`buildClaudeGenerationConfig` mirrors the Go function line by line; Go's
sequential mutations of `cfg` become helper functions composed in the same
order.  `*float64` request fields become `Option Rat`; a `nil` check
followed by an assignment collapses to copying the option.
-/

namespace ClaudeConv

structure ClaudeThinking where
  type : String
  budget : Int
  level : String
deriving DecidableEq, Repr

structure ClaudeMessagesRequest where
  maxTokens : Int
  temperature : Option Rat
  topP : Option Rat
  stopSequences : List String
  thinking : Option ClaudeThinking
deriving DecidableEq, Repr

structure GenerationConfig where
  candidateCount : Int
  stopSequences : List String
  maxOutputTokens : Int
  temperature : Option Rat
  topP : Option Rat
  topK : Int
  thinkingConfig : Option Core.ThinkingConfig
deriving DecidableEq, Repr

def baseClaudeConfig (req : ClaudeMessagesRequest) : GenerationConfig :=
  { candidateCount := 1
    maxOutputTokens := req.maxTokens
    stopSequences :=
      if req.stopSequences.length > 0 then
        Core.DefaultStopSequences ++ req.stopSequences
      else Core.DefaultStopSequences
    temperature := req.temperature
    topP := req.topP
    topK := 0
    thinkingConfig := none }

def mergeReqThinking (tc : Core.ThinkingConfig)
    (t : Option ClaudeThinking) : Core.ThinkingConfig :=
  match t with
  | some t =>
    if t.type = "enabled" then
      if t.budget > 0 then
        if t.level ≠ "" then
          { tc with thinkingBudget := t.budget, thinkingLevel := t.level }
        else { tc with thinkingBudget := t.budget }
      else if t.level ≠ "" then { tc with thinkingLevel := t.level }
      else tc
    else tc
  | none => tc

def adjustGemini (modelName : String)
    (tc : Core.ThinkingConfig) : Core.ThinkingConfig :=
  if Core.goHasPrefix modelName "gemini-3-pro-" then
    { tc with thinkingLevel := "high", thinkingBudget := 0 }
  else tc

def applyBudgetConstraint (cfg : GenerationConfig)
    (tc : Core.ThinkingConfig) : GenerationConfig :=
  if tc.thinkingBudget > 0 then
    if cfg.maxOutputTokens ≤ tc.thinkingBudget + 1024 then
      if cfg.maxOutputTokens - 1024 < 1024 then
        { cfg with maxOutputTokens := 2048,
                   thinkingConfig := some ({ tc with thinkingBudget := 1024 }) }
      else
        { cfg with thinkingConfig := some ({ tc with thinkingBudget := cfg.maxOutputTokens - 1024 }) }
    else { cfg with thinkingConfig := some tc }
  else { cfg with thinkingConfig := some tc }

def buildClaudeGenerationConfig (req : ClaudeMessagesRequest)
    (modelName : String) : GenerationConfig :=
  if Core.ShouldEnableThinking modelName none then
    applyBudgetConstraint (baseClaudeConfig req)
      (adjustGemini modelName
        (mergeReqThinking (Core.BuildThinkingConfig modelName) req.thinking))
  else baseClaudeConfig req

theorem applyBudgetConstraint_margin (cfg : GenerationConfig)
    (tc tc2 : Core.ThinkingConfig)
    (h : (applyBudgetConstraint cfg tc).thinkingConfig = some tc2)
    (hb : tc2.thinkingBudget > 0) :
    (applyBudgetConstraint cfg tc).maxOutputTokens ≥ tc2.thinkingBudget + 1024 := by
  unfold applyBudgetConstraint at h ⊢
  split_ifs at h ⊢ with h1 h2 h3
  · dsimp only at h ⊢
    injection h with h
    subst h
    dsimp only
    omega
  · dsimp only at h ⊢
    injection h with h
    subst h
    dsimp only
    omega
  · dsimp only at h ⊢
    injection h with h
    subst h
    omega
  · dsimp only at h ⊢
    injection h with h
    subst h
    exact absurd hb h1

/-- C7 (corrected). For every Claude request and model, whenever the
generation config built by buildClaudeGenerationConfig carries a thinking
config with a positive thinking budget, maxOutputTokens is at least
thinkingBudget + 1024.  The inequality is non-strict: both the
budget-reduction branch (budget becomes maxOutputTokens - 1024) and the
last-resort branch (budget 1024, maxOutputTokens 2048) achieve exact
equality, so the claimed strict bound maxOutputTokens > thinkingBudget +
1024 does not hold. -/
theorem claude_budget_margin (req : ClaudeMessagesRequest)
    (modelName : String) (tc : Core.ThinkingConfig)
    (h : (buildClaudeGenerationConfig req modelName).thinkingConfig = some tc)
    (hb : tc.thinkingBudget > 0) :
    (buildClaudeGenerationConfig req modelName).maxOutputTokens ≥
      tc.thinkingBudget + 1024 := by
  unfold buildClaudeGenerationConfig at h ⊢
  split_ifs at h ⊢
  · exact applyBudgetConstraint_margin (baseClaudeConfig req)
      (adjustGemini modelName
        (mergeReqThinking (Core.BuildThinkingConfig modelName) req.thinking))
      tc h hb
  · simp [baseClaudeConfig] at h

/-- Counterexample to C7 as stated: for the thinking model
claude-sonnet-4-5-thinking with client max_tokens 3000, the built config
has maxOutputTokens 3000 and thinkingBudget 1976 = 3000 - 1024, so
maxOutputTokens = thinkingBudget + 1024 and the claimed strict inequality
maxOutputTokens > thinkingBudget + 1024 fails. -/
theorem claude_budget_margin_counterexample :
    (buildClaudeGenerationConfig
        ⟨3000, none, none, [], none⟩ "claude-sonnet-4-5-thinking").thinkingConfig =
      some { includeThoughts := true, thinkingBudget := 1976, thinkingLevel := "" } ∧
    (buildClaudeGenerationConfig
        ⟨3000, none, none, [], none⟩ "claude-sonnet-4-5-thinking").maxOutputTokens = 3000 ∧
    ¬ ((3000 : Int) > 1976 + 1024) := by
  refine ⟨by decide, by decide, by decide⟩

/-- Witness for C7 (amended) at a concrete input: with max_tokens 50000 the
default Claude budget 32000 is kept and 50000 ≥ 32000 + 1024. -/
theorem claude_budget_margin_witness :
    (buildClaudeGenerationConfig
        ⟨50000, none, none, [], none⟩ "claude-sonnet-4-5-thinking").maxOutputTokens ≥
      (32000 : Int) + 1024 :=
  claude_budget_margin ⟨50000, none, none, [], none⟩ "claude-sonnet-4-5-thinking"
    { includeThoughts := true, thinkingBudget := 32000, thinkingLevel := "" }
    (by decide) (by decide)

end ClaudeConv

/-!
## JSON values

Go's `interface{}` holding unmarshalled JSON is modelled by `JVal`:
strings, float64 numbers (as `Rat`), booleans, null, arrays, and
`map[string]interface{}` objects as association lists.  Type assertions
with an `ok` default (`block["type"].(string)` etc.) become the `asStr` /
`asBool` / `asArgs` accessors returning the Go zero value on mismatch.
-/

inductive JVal where
  | str : String → JVal
  | num : Rat → JVal
  | bool : Bool → JVal
  | null : JVal
  | arr : List JVal → JVal
  | obj : List (String × JVal) → JVal
deriving Repr

def jLookup : List (String × JVal) → String → Option JVal
  | [], _ => none
  | (k, v) :: rest, key => if k = key then some v else jLookup rest key

mutual

def jDepth : JVal → Nat
  | JVal.arr l => 1 + jDepthList l
  | JVal.obj m => 1 + jDepthObj m
  | _ => 1

def jDepthList : List JVal → Nat
  | [] => 0
  | v :: rest => max (jDepth v) (jDepthList rest)

def jDepthObj : List (String × JVal) → Nat
  | [] => 0
  | (_, v) :: rest => max (jDepth v) (jDepthObj rest)

end

def setKeyJ : List (String × JVal) → String → JVal → List (String × JVal)
  | [], k, v => [(k, v)]
  | (k1, v1) :: rest, k, v =>
    if k1 = k then (k1, v) :: rest else (k1, v1) :: setKeyJ rest k v

def eraseKeyJ : List (String × JVal) → String → List (String × JVal)
  | [], _ => []
  | (k1, v1) :: rest, k =>
    if k1 = k then eraseKeyJ rest k else (k1, v1) :: eraseKeyJ rest k

def asStr : Option JVal → String
  | some (JVal.str s) => s
  | _ => ""

def asBool : Option JVal → Bool
  | some (JVal.bool b) => b
  | _ => false

def asArgs : Option JVal → Option (List (String × JVal))
  | some (JVal.obj m) => some m
  | _ => none

/-!
## Claude content to Antigravity Parts (src/internal/adapter/claude/converter.go)

`convertClaudeContentToParts` and `applySignatureToParts`.  The `sonic`
JSON parser used for tool_result bodies is an external library and is
passed in as a function argument `jp`; the `toolIDToName` map becomes an
association list.  Go's in-place signature assignment with early return
becomes an index search (`sigTargetIdx`, encoding the source's priority
functionCall > last non-thought text > last thought) followed by a
functional update (`setSigAt`).  The `InlineData` field of `Part`, never
touched on this code path, is omitted.
-/

namespace ClaudeConv

structure FunctionCall where
  id : String
  name : String
  args : Option (List (String × JVal))
deriving Repr

structure FunctionResponse where
  id : String
  name : String
  response : List (String × JVal)
deriving Repr

structure Part where
  text : String
  functionCall : Option FunctionCall
  functionResponse : Option FunctionResponse
  thought : Bool
  thoughtSignature : String
deriving Repr

def strJoin (sep : String) : List String → String
  | [] => ""
  | [s] => s
  | s :: rest => s ++ sep ++ strJoin sep rest

def toolResultTexts : List JVal → List String
  | [] => []
  | JVal.obj m :: rest =>
    (match jLookup m "type", jLookup m "text" with
     | some (JVal.str t), some (JVal.str s) =>
       if t = "text" then s :: toolResultTexts rest else toolResultTexts rest
     | _, _ => toolResultTexts rest)
  | _ :: rest => toolResultTexts rest

def extractToolResultContent : JVal → String
  | JVal.str s => s
  | JVal.arr items => strJoin "\n" (toolResultTexts items)
  | _ => ""

def toolResultContentStr : Option JVal → String
  | some c => extractToolResultContent c
  | none => ""

def toolResultResponse (jp : String → Option (List (String × JVal)))
    (raw : Option JVal) (isErr : Bool) : List (String × JVal) :=
  match jp (toolResultContentStr raw) with
  | some m => m
  | none =>
    if isErr then [("error", JVal.str (toolResultContentStr raw))]
    else [("result", JVal.str (toolResultContentStr raw))]

def mapLookupD (tm : List (String × String)) (k : String) : String :=
  match tm.find? (fun p => p.1 == k) with
  | some p => p.2
  | none => ""

def blockParts (jp : String → Option (List (String × JVal)))
    (tm : List (String × String)) (block : List (String × JVal)) : List Part :=
  if asStr (jLookup block "type") = "text" then
    if asStr (jLookup block "text") ≠ "" then
      [{ text := asStr (jLookup block "text"), functionCall := none,
         functionResponse := none, thought := false, thoughtSignature := "" }]
    else []
  else if asStr (jLookup block "type") = "thinking" then
    if asStr (jLookup block "thinking") ≠ "" then
      [{ text := asStr (jLookup block "thinking"), functionCall := none,
         functionResponse := none, thought := true, thoughtSignature := "" }]
    else []
  else if asStr (jLookup block "type") = "tool_use" then
    [{ text := "",
       functionCall := some { id := asStr (jLookup block "id"),
                              name := asStr (jLookup block "name"),
                              args := asArgs (jLookup block "input") },
       functionResponse := none, thought := false, thoughtSignature := "" }]
  else if asStr (jLookup block "type") = "tool_result" then
    [{ text := "", functionCall := none,
       functionResponse := some
         { id := asStr (jLookup block "tool_use_id"),
           name := mapLookupD tm (asStr (jLookup block "tool_use_id")),
           response := toolResultResponse jp (jLookup block "content")
             (asBool (jLookup block "is_error")) },
       thought := false, thoughtSignature := "" }]
  else []

def blockSigUpdate (block : List (String × JVal)) (s : String) : String :=
  if asStr (jLookup block "type") = "thinking" then
    if asStr (jLookup block "signature") ≠ "" ∧ s = "" then
      asStr (jLookup block "signature")
    else s
  else s

def convStep (jp : String → Option (List (String × JVal)))
    (tm : List (String × String)) (st : List Part × String)
    (item : JVal) : List Part × String :=
  match item with
  | JVal.obj block => (st.1 ++ blockParts jp tm block, blockSigUpdate block st.2)
  | _ => st

def convScan (jp : String → Option (List (String × JVal)))
    (tm : List (String × String)) (v : List JVal) : List Part × String :=
  v.foldl (convStep jp tm) ([], "")

def firstIdxBy (f : Part → Bool) : List Part → Option Nat
  | [] => none
  | p :: rest => if f p then some 0 else (firstIdxBy f rest).map (fun i => i + 1)

def lastIdxBy (f : Part → Bool) : List Part → Option Nat
  | [] => none
  | p :: rest =>
    match lastIdxBy f rest with
    | some i => some (i + 1)
    | none => if f p then some 0 else none

def sigTargetIdx (parts : List Part) : Option Nat :=
  match firstIdxBy (fun p => p.functionCall.isSome) parts with
  | some i => some i
  | none =>
    match lastIdxBy (fun p => p.text != "" && !p.thought) parts with
    | some i => some i
    | none => lastIdxBy (fun p => p.thought) parts

def setSigAt : List Part → Nat → String → List Part
  | [], _, _ => []
  | p :: rest, 0, sig => { p with thoughtSignature := sig } :: rest
  | p :: rest, n + 1, sig => p :: setSigAt rest n sig

def applySignatureToParts (parts : List Part) (signature : String) : List Part :=
  match sigTargetIdx parts with
  | some i => setSigAt parts i signature
  | none => parts

def convertClaudeContentToParts (jp : String → Option (List (String × JVal)))
    (tm : List (String × String)) (content : JVal) : List Part :=
  match content with
  | JVal.str s =>
    if s ≠ "" then
      [{ text := s, functionCall := none, functionResponse := none,
         thought := false, thoughtSignature := "" }]
    else []
  | JVal.arr v =>
    if (convScan jp tm v).2 ≠ "" then
      applySignatureToParts (convScan jp tm v).1 (convScan jp tm v).2
    else (convScan jp tm v).1
  | _ => []

def countSigned (l : List Part) : Nat :=
  l.countP (fun p => p.thoughtSignature != "")

def eligibleForSignature (p : Part) : Bool :=
  p.functionCall.isSome || (p.text != "" && !p.thought) || p.thought

theorem blockParts_unsigned (jp : String → Option (List (String × JVal)))
    (tm : List (String × String)) (block : List (String × JVal)) :
    ∀ p ∈ blockParts jp tm block, p.thoughtSignature = "" := by
  intro p hp
  unfold blockParts at hp
  split_ifs at hp <;> simp at hp <;> (try rw [hp])

theorem convScan_unsigned (jp : String → Option (List (String × JVal)))
    (tm : List (String × String)) (blocks : List JVal) :
    ∀ st : List Part × String, (∀ p ∈ st.1, p.thoughtSignature = "") →
      ∀ p ∈ (blocks.foldl (convStep jp tm) st).1, p.thoughtSignature = "" := by
  induction blocks with
  | nil => intro st h; exact h
  | cons b rest ih =>
    intro st h
    rw [List.foldl_cons]
    apply ih
    cases b with
    | obj block =>
      intro p hp
      rcases List.mem_append.mp hp with h1 | h2
      · exact h p h1
      · exact blockParts_unsigned jp tm block p h2
    | str s => exact h
    | num n => exact h
    | bool b => exact h
    | null => exact h
    | arr a => exact h

theorem firstIdxBy_lt (f : Part → Bool) :
    ∀ l : List Part, ∀ i, firstIdxBy f l = some i → i < l.length := by
  intro l
  induction l with
  | nil => intro i h; simp [firstIdxBy] at h
  | cons p rest ih =>
    intro i h
    unfold firstIdxBy at h
    split_ifs at h
    · injection h with h
      simp only [List.length_cons]
      omega
    · rcases Option.map_eq_some.mp h with ⟨j, hj, rfl⟩
      have := ih j hj
      simp only [List.length_cons]
      omega

theorem firstIdxBy_eq_none (f : Part → Bool) :
    ∀ l : List Part, firstIdxBy f l = none → ∀ p ∈ l, f p = false := by
  intro l
  induction l with
  | nil => intro _ p hp; cases hp
  | cons q rest ih =>
    intro h p hp
    unfold firstIdxBy at h
    split_ifs at h with hq
    · rcases List.mem_cons.mp hp with rfl | hmem
      · exact Bool.not_eq_true _ |>.mp hq
      · exact ih (Option.map_eq_none.mp h) p hmem

theorem lastIdxBy_lt (f : Part → Bool) :
    ∀ l : List Part, ∀ i, lastIdxBy f l = some i → i < l.length := by
  intro l
  induction l with
  | nil => intro i h; simp [lastIdxBy] at h
  | cons p rest ih =>
    intro i h
    unfold lastIdxBy at h
    cases hr : lastIdxBy f rest with
    | some j =>
      rw [hr] at h
      injection h with h
      have := ih j hr
      simp only [List.length_cons]
      omega
    | none =>
      rw [hr] at h
      split_ifs at h
      injection h with h
      simp only [List.length_cons]
      omega

theorem lastIdxBy_eq_none (f : Part → Bool) :
    ∀ l : List Part, lastIdxBy f l = none → ∀ p ∈ l, f p = false := by
  intro l
  induction l with
  | nil => intro _ p hp; cases hp
  | cons q rest ih =>
    intro h p hp
    unfold lastIdxBy at h
    cases hr : lastIdxBy f rest with
    | some j => rw [hr] at h; cases h
    | none =>
      rw [hr] at h
      split_ifs at h with hq
      rcases List.mem_cons.mp hp with rfl | hmem
      · exact Bool.not_eq_true _ |>.mp hq
      · exact ih hr p hmem

theorem sigTargetIdx_of_eligible (parts : List Part)
    (h : ∃ p ∈ parts, eligibleForSignature p = true) :
    ∃ i, sigTargetIdx parts = some i ∧ i < parts.length := by
  obtain ⟨p, hp, he⟩ := h
  unfold sigTargetIdx
  cases h1 : firstIdxBy (fun p => p.functionCall.isSome) parts with
  | some i => exact ⟨i, rfl, firstIdxBy_lt _ parts i h1⟩
  | none =>
    cases h2 : lastIdxBy (fun p => p.text != "" && !p.thought) parts with
    | some i => exact ⟨i, rfl, lastIdxBy_lt _ parts i h2⟩
    | none =>
      cases h3 : lastIdxBy (fun p => p.thought) parts with
      | some i => exact ⟨i, rfl, lastIdxBy_lt _ parts i h3⟩
      | none =>
        exfalso
        have e1 := firstIdxBy_eq_none _ parts h1 p hp
        have e2 := lastIdxBy_eq_none _ parts h2 p hp
        have e3 := lastIdxBy_eq_none _ parts h3 p hp
        have hb : (p.text != "") = false := by
          rw [e3] at e2
          simpa using e2
        simp only [eligibleForSignature] at he
        rw [e1, hb, e3] at he
        simp at he

theorem countSigned_zero (l : List Part)
    (h : ∀ p ∈ l, p.thoughtSignature = "") : countSigned l = 0 := by
  unfold countSigned
  rw [List.countP_eq_zero]
  intro p hp
  simp [h p hp]

theorem countSigned_setSigAt (sig : String) (hs : sig ≠ "") :
    ∀ l : List Part, ∀ i, (∀ p ∈ l, p.thoughtSignature = "") → i < l.length →
      countSigned (setSigAt l i sig) = 1 := by
  intro l
  induction l with
  | nil => intro i _ hlt; cases hlt
  | cons p rest ih =>
    intro i hall hlt
    cases i with
    | zero =>
      unfold setSigAt countSigned
      rw [List.countP_cons]
      have hz : countSigned rest = 0 :=
        countSigned_zero rest (fun q hq => hall q (List.mem_cons_of_mem p hq))
      unfold countSigned at hz
      rw [hz]
      simp [hs]
    | succ n =>
      unfold setSigAt countSigned
      rw [List.countP_cons]
      have h1 : countSigned (setSigAt rest n sig) = 1 :=
        ih n (fun q hq => hall q (List.mem_cons_of_mem p hq))
          (by simp only [List.length_cons] at hlt; omega)
      unfold countSigned at h1
      rw [h1]
      have hp : p.thoughtSignature = "" := hall p (List.mem_cons_self p rest)
      simp [hp]

/-- C3 (corrected).  For a Claude content array whose first-phase scan
captures a non-empty thinking signature, the signature is attached to
exactly one Part, at the index chosen by the source's priority (first
functionCall part; else last non-thought text part; else last thought
part) — provided at least one Part eligible under one of those three
rules exists.  The original claim's hypothesis (a thinking block with a
non-empty signature is present) is not sufficient: a thinking block with
empty thinking text contributes no Part, so the parts list can lack any
eligible target and the signature is silently dropped. -/
theorem claude_signature_exactly_one
    (jp : String → Option (List (String × JVal))) (tm : List (String × String))
    (blocks : List JVal)
    (hsig : (convScan jp tm blocks).2 ≠ "")
    (helig : ∃ p ∈ (convScan jp tm blocks).1, eligibleForSignature p = true) :
    ∃ i, sigTargetIdx (convScan jp tm blocks).1 = some i ∧
      convertClaudeContentToParts jp tm (JVal.arr blocks) =
        setSigAt (convScan jp tm blocks).1 i (convScan jp tm blocks).2 ∧
      countSigned (convertClaudeContentToParts jp tm (JVal.arr blocks)) = 1 := by
  obtain ⟨i, hidx, hlt⟩ := sigTargetIdx_of_eligible _ helig
  have hall : ∀ p ∈ (convScan jp tm blocks).1, p.thoughtSignature = "" :=
    convScan_unsigned jp tm blocks ([], "") (by intro p hp; cases hp)
  have hconv : convertClaudeContentToParts jp tm (JVal.arr blocks) =
      setSigAt (convScan jp tm blocks).1 i (convScan jp tm blocks).2 := by
    rw [show convertClaudeContentToParts jp tm (JVal.arr blocks) =
        (if (convScan jp tm blocks).2 ≠ "" then
          applySignatureToParts (convScan jp tm blocks).1 (convScan jp tm blocks).2
         else (convScan jp tm blocks).1) from rfl]
    rw [if_pos hsig]
    unfold applySignatureToParts
    rw [hidx]
  refine ⟨i, hidx, hconv, ?_⟩
  rw [hconv]
  exact countSigned_setSigAt (convScan jp tm blocks).2 hsig
    (convScan jp tm blocks).1 i hall hlt

/-- Counterexample to C3 as stated: a content array consisting of a single
thinking block with empty thinking text but non-empty signature sig123.
The scan captures the signature, yet no Part is produced, so zero Parts
(not exactly one) carry a thoughtSignature. -/
theorem claude_signature_counterexample :
    (convScan (fun _ => none) []
        [JVal.obj [("type", JVal.str "thinking"), ("thinking", JVal.str ""),
                   ("signature", JVal.str "sig123")]]).2 = "sig123" ∧
    convertClaudeContentToParts (fun _ => none) []
        (JVal.arr [JVal.obj [("type", JVal.str "thinking"),
                             ("thinking", JVal.str ""),
                             ("signature", JVal.str "sig123")]]) = [] ∧
    countSigned (convertClaudeContentToParts (fun _ => none) []
        (JVal.arr [JVal.obj [("type", JVal.str "thinking"),
                             ("thinking", JVal.str ""),
                             ("signature", JVal.str "sig123")]])) = 0 :=
  ⟨rfl, rfl, rfl⟩

/-- Witness for C3 (amended) at the spec's S3-style scenario: one thinking
block with non-empty text and signature, one tool_use and one text block.
Exactly one Part is signed and it is the functionCall Part. -/
theorem claude_signature_exactly_one_witness :
    countSigned (convertClaudeContentToParts (fun _ => none) []
        (JVal.arr [JVal.obj [("type", JVal.str "thinking"),
                             ("thinking", JVal.str "let me think"),
                             ("signature", JVal.str "sigABC")],
                   JVal.obj [("type", JVal.str "tool_use"),
                             ("id", JVal.str "toolu_1"),
                             ("name", JVal.str "get_weather"),
                             ("input", JVal.obj [])],
                   JVal.obj [("type", JVal.str "text"),
                             ("text", JVal.str "checking")]])) = 1 ∧
    (convertClaudeContentToParts (fun _ => none) []
        (JVal.arr [JVal.obj [("type", JVal.str "thinking"),
                             ("thinking", JVal.str "let me think"),
                             ("signature", JVal.str "sigABC")],
                   JVal.obj [("type", JVal.str "tool_use"),
                             ("id", JVal.str "toolu_1"),
                             ("name", JVal.str "get_weather"),
                             ("input", JVal.obj [])],
                   JVal.obj [("type", JVal.str "text"),
                             ("text", JVal.str "checking")]])).map
      (fun p => (p.functionCall.isSome, p.thoughtSignature)) =
      [(false, ""), (true, "sigABC"), (false, "")] := by
  constructor
  · obtain ⟨i, h1, h2, h3⟩ := claude_signature_exactly_one (fun _ => none) []
      [JVal.obj [("type", JVal.str "thinking"),
                 ("thinking", JVal.str "let me think"),
                 ("signature", JVal.str "sigABC")],
       JVal.obj [("type", JVal.str "tool_use"),
                 ("id", JVal.str "toolu_1"),
                 ("name", JVal.str "get_weather"),
                 ("input", JVal.obj [])],
       JVal.obj [("type", JVal.str "text"),
                 ("text", JVal.str "checking")]]
      (by decide) (by decide)
    exact h3
  · rfl

end ClaudeConv

theorem jLookup_setKeyJ_self (m : List (String × JVal)) (k : String) (v : JVal) :
    jLookup (setKeyJ m k v) k = some v := by
  induction m with
  | nil => simp [setKeyJ, jLookup]
  | cons kv rest ih =>
    obtain ⟨k1, v1⟩ := kv
    by_cases h : k1 = k
    · simp [setKeyJ, jLookup, h]
    · simp [setKeyJ, jLookup, h, ih]

theorem jLookup_setKeyJ_ne (m : List (String × JVal)) (k : String) (v : JVal)
    (k2 : String) (h : k2 ≠ k) :
    jLookup (setKeyJ m k v) k2 = jLookup m k2 := by
  induction m with
  | nil =>
    have h2 : k ≠ k2 := fun he => h he.symm
    simp [setKeyJ, jLookup, h2]
  | cons kv rest ih =>
    obtain ⟨k1, v1⟩ := kv
    by_cases h1 : k1 = k
    · subst h1
      have h2 : k1 ≠ k2 := fun he => h he.symm
      simp [setKeyJ, jLookup, h2]
    · by_cases h3 : k1 = k2
      · simp [setKeyJ, jLookup, h1, h3, h]
      · simp [setKeyJ, jLookup, h1, h3, ih]

theorem jLookup_eraseKeyJ_self (m : List (String × JVal)) (k : String) :
    jLookup (eraseKeyJ m k) k = none := by
  induction m with
  | nil => rfl
  | cons kv rest ih =>
    obtain ⟨k1, v1⟩ := kv
    by_cases h : k1 = k
    · simp [eraseKeyJ, h, ih]
    · simp [eraseKeyJ, jLookup, h, ih]

theorem jLookup_eraseKeyJ_ne (m : List (String × JVal)) (k k2 : String)
    (h : k2 ≠ k) :
    jLookup (eraseKeyJ m k) k2 = jLookup m k2 := by
  induction m with
  | nil => rfl
  | cons kv rest ih =>
    obtain ⟨k1, v1⟩ := kv
    by_cases h1 : k1 = k
    · subst h1
      have h2 : k1 ≠ k2 := fun he => h he.symm
      simp [eraseKeyJ, jLookup, h2, ih]
    · by_cases h3 : k1 = k2
      · simp [eraseKeyJ, jLookup, h1, h3, h]
      · simp [eraseKeyJ, jLookup, h1, h3, ih]

theorem foldl_eraseKeyJ_lookup (ks : List String) :
    ∀ m : List (String × JVal), ∀ k,
      jLookup (ks.foldl eraseKeyJ m) k = if k ∈ ks then none else jLookup m k := by
  induction ks with
  | nil => intro m k; simp
  | cons k1 rest ih =>
    intro m k
    rw [List.foldl_cons, ih]
    by_cases h1 : k ∈ rest
    · simp [h1]
    · by_cases h2 : k = k1
      · subst h2
        simp [h1, jLookup_eraseKeyJ_self]
      · simp [h1, h2, jLookup_eraseKeyJ_ne m k1 k h2]

/-!
## Claude tool schema cleaning (src/unnamed/part_004)

`cleanSchemaForVertexAI` mutates a schema map in place and recurses into
`properties` values, an object-form `items`, and the elements of an
array-form `items`.  The recursion is modelled with a fuel parameter
(`cleanSchemaF`); `schemaFuel` supplies one unit of fuel per level of
object nesting, so the fuel never runs out on the actual input.
`deepCopyMap` only defends against aliasing, which has no counterpart in
this value semantics, so `ConvertClaudeToolsToAntigravity` applies the
cleaner to the schema value directly.
-/

namespace ClaudeConv

def unsupportedFields : List String :=
  ["$schema", "$ref", "$id", "$defs", "definitions", "minItems", "maxItems",
   "uniqueItems", "pattern", "additionalProperties", "patternProperties",
   "dependencies", "if", "then", "else", "allOf", "anyOf", "oneOf", "not",
   "contentMediaType", "contentEncoding", "examples", "default", "const",
   "minLength", "maxLength", "format"]

def exMinRewrite (m : List (String × JVal)) : List (String × JVal) :=
  match jLookup m "exclusiveMinimum" with
  | some (JVal.num x) =>
    eraseKeyJ
      (if (jLookup m "minimum").isNone then setKeyJ m "minimum" (JVal.num (x + 1))
       else m)
      "exclusiveMinimum"
  | _ => m

def exMaxRewrite (m : List (String × JVal)) : List (String × JVal) :=
  match jLookup m "exclusiveMaximum" with
  | some (JVal.num x) =>
    eraseKeyJ
      (if (jLookup m "maximum").isNone then setKeyJ m "maximum" (JVal.num (x - 1))
       else m)
      "exclusiveMaximum"
  | _ => m

def cleanFields (m : List (String × JVal)) : List (String × JVal) :=
  unsupportedFields.foldl eraseKeyJ m

def updPropsWith (clean : List (String × JVal) → List (String × JVal))
    (m : List (String × JVal)) : List (String × JVal) :=
  match jLookup m "properties" with
  | some (JVal.obj props) =>
    setKeyJ m "properties" (JVal.obj (props.map (fun kv =>
      match kv.2 with
      | JVal.obj o => (kv.1, JVal.obj (clean o))
      | _ => kv)))
  | _ => m

def updItemsWith (clean : List (String × JVal) → List (String × JVal))
    (m : List (String × JVal)) : List (String × JVal) :=
  match jLookup m "items" with
  | some (JVal.obj o) => setKeyJ m "items" (JVal.obj (clean o))
  | some (JVal.arr l) =>
    setKeyJ m "items" (JVal.arr (l.map (fun v =>
      match v with
      | JVal.obj o => JVal.obj (clean o)
      | _ => v)))
  | _ => m

def cleanSchemaF : Nat → List (String × JVal) → List (String × JVal)
  | 0, m => m
  | Nat.succ fuel, m =>
    updItemsWith (cleanSchemaF fuel)
      (updPropsWith (cleanSchemaF fuel)
        (cleanFields (exMaxRewrite (exMinRewrite m))))

def schemaFuel (m : List (String × JVal)) : Nat := jDepthObj m + 1

def cleanSchemaForVertexAI (m : List (String × JVal)) : List (String × JVal) :=
  cleanSchemaF (schemaFuel m) m

structure ClaudeTool where
  name : String
  description : String
  inputSchema : List (String × JVal)
deriving Repr

structure FunctionDeclaration where
  name : String
  description : String
  parameters : List (String × JVal)
deriving Repr

structure Tool where
  functionDeclarations : List FunctionDeclaration
deriving Repr

def ConvertClaudeToolsToAntigravity (tools : List ClaudeTool) : List Tool :=
  tools.map (fun tool =>
    { functionDeclarations :=
        [{ name := tool.name, description := tool.description,
           parameters := cleanSchemaForVertexAI tool.inputSchema }] })

def propsOK (nb : List (String × JVal) → Bool) (m : List (String × JVal)) : Bool :=
  match jLookup m "properties" with
  | some (JVal.obj props) =>
    props.all (fun kv => match kv.2 with | JVal.obj o => nb o | _ => true)
  | _ => true

def itemsOK (nb : List (String × JVal) → Bool) (m : List (String × JVal)) : Bool :=
  match jLookup m "items" with
  | some (JVal.obj o) => nb o
  | some (JVal.arr l) =>
    l.all (fun v => match v with | JVal.obj o => nb o | _ => true)
  | _ => true

def noBannedF : Nat → List (String × JVal) → Bool
  | 0, _ => true
  | Nat.succ fuel, m =>
    unsupportedFields.all (fun f => (jLookup m f).isNone) &&
    propsOK (noBannedF fuel) m && itemsOK (noBannedF fuel) m

theorem exMinRewrite_other (m : List (String × JVal)) (k : String)
    (h1 : k ≠ "minimum") (h2 : k ≠ "exclusiveMinimum") :
    jLookup (exMinRewrite m) k = jLookup m k := by
  unfold exMinRewrite
  split
  · rw [jLookup_eraseKeyJ_ne _ _ _ h2]
    split_ifs
    · rw [jLookup_setKeyJ_ne _ _ _ _ h1]
    · rfl
  · rfl

theorem exMaxRewrite_other (m : List (String × JVal)) (k : String)
    (h1 : k ≠ "maximum") (h2 : k ≠ "exclusiveMaximum") :
    jLookup (exMaxRewrite m) k = jLookup m k := by
  unfold exMaxRewrite
  split
  · rw [jLookup_eraseKeyJ_ne _ _ _ h2]
    split_ifs
    · rw [jLookup_setKeyJ_ne _ _ _ _ h1]
    · rfl
  · rfl

theorem exMinRewrite_exMin (m : List (String × JVal)) (x : Rat)
    (h : jLookup m "exclusiveMinimum" = some (JVal.num x)) :
    jLookup (exMinRewrite m) "exclusiveMinimum" = none := by
  unfold exMinRewrite
  rw [h]
  exact jLookup_eraseKeyJ_self _ _

theorem exMinRewrite_min_absent (m : List (String × JVal)) (x : Rat)
    (h : jLookup m "exclusiveMinimum" = some (JVal.num x))
    (habs : jLookup m "minimum" = none) :
    jLookup (exMinRewrite m) "minimum" = some (JVal.num (x + 1)) := by
  unfold exMinRewrite
  rw [h]
  show jLookup (eraseKeyJ (if (jLookup m "minimum").isNone then
      setKeyJ m "minimum" (JVal.num (x + 1)) else m) "exclusiveMinimum")
    "minimum" = some (JVal.num (x + 1))
  rw [jLookup_eraseKeyJ_ne _ _ _ (by decide)]
  rw [if_pos (by rw [habs]; rfl)]
  exact jLookup_setKeyJ_self _ _ _

theorem exMinRewrite_min_present (m : List (String × JVal)) (x : Rat) (v : JVal)
    (h : jLookup m "exclusiveMinimum" = some (JVal.num x))
    (hp : jLookup m "minimum" = some v) :
    jLookup (exMinRewrite m) "minimum" = some v := by
  unfold exMinRewrite
  rw [h]
  show jLookup (eraseKeyJ (if (jLookup m "minimum").isNone then
      setKeyJ m "minimum" (JVal.num (x + 1)) else m) "exclusiveMinimum")
    "minimum" = some v
  rw [jLookup_eraseKeyJ_ne _ _ _ (by decide)]
  rw [if_neg (by rw [hp]; simp)]
  exact hp

theorem exMaxRewrite_exMax (m : List (String × JVal)) (x : Rat)
    (h : jLookup m "exclusiveMaximum" = some (JVal.num x)) :
    jLookup (exMaxRewrite m) "exclusiveMaximum" = none := by
  unfold exMaxRewrite
  rw [h]
  exact jLookup_eraseKeyJ_self _ _

theorem exMaxRewrite_max_absent (m : List (String × JVal)) (x : Rat)
    (h : jLookup m "exclusiveMaximum" = some (JVal.num x))
    (habs : jLookup m "maximum" = none) :
    jLookup (exMaxRewrite m) "maximum" = some (JVal.num (x - 1)) := by
  unfold exMaxRewrite
  rw [h]
  show jLookup (eraseKeyJ (if (jLookup m "maximum").isNone then
      setKeyJ m "maximum" (JVal.num (x - 1)) else m) "exclusiveMaximum")
    "maximum" = some (JVal.num (x - 1))
  rw [jLookup_eraseKeyJ_ne _ _ _ (by decide)]
  rw [if_pos (by rw [habs]; rfl)]
  exact jLookup_setKeyJ_self _ _ _

theorem exMaxRewrite_max_present (m : List (String × JVal)) (x : Rat) (v : JVal)
    (h : jLookup m "exclusiveMaximum" = some (JVal.num x))
    (hp : jLookup m "maximum" = some v) :
    jLookup (exMaxRewrite m) "maximum" = some v := by
  unfold exMaxRewrite
  rw [h]
  show jLookup (eraseKeyJ (if (jLookup m "maximum").isNone then
      setKeyJ m "maximum" (JVal.num (x - 1)) else m) "exclusiveMaximum")
    "maximum" = some v
  rw [jLookup_eraseKeyJ_ne _ _ _ (by decide)]
  rw [if_neg (by rw [hp]; simp)]
  exact hp

theorem updPropsWith_other (c : List (String × JVal) → List (String × JVal))
    (m : List (String × JVal)) (k : String) (h : k ≠ "properties") :
    jLookup (updPropsWith c m) k = jLookup m k := by
  unfold updPropsWith
  split
  · rw [jLookup_setKeyJ_ne _ _ _ _ h]
  · rfl

theorem updItemsWith_other (c : List (String × JVal) → List (String × JVal))
    (m : List (String × JVal)) (k : String) (h : k ≠ "items") :
    jLookup (updItemsWith c m) k = jLookup m k := by
  unfold updItemsWith
  split
  · rw [jLookup_setKeyJ_ne _ _ _ _ h]
  · rw [jLookup_setKeyJ_ne _ _ _ _ h]
  · rfl

theorem noBannedF_cleanSchemaF :
    ∀ fuel : Nat, ∀ m : List (String × JVal),
      noBannedF fuel (cleanSchemaF fuel m) = true := by
  intro fuel
  induction fuel with
  | zero => intro m; rfl
  | succ fuel ih =>
    intro m
    have hfacts : ∀ f ∈ unsupportedFields, f ≠ "items" ∧ f ≠ "properties" := by
      decide
    rw [show cleanSchemaF (fuel + 1) m =
      updItemsWith (cleanSchemaF fuel)
        (updPropsWith (cleanSchemaF fuel)
          (cleanFields (exMaxRewrite (exMinRewrite m)))) from rfl]
    have hban : ∀ f ∈ unsupportedFields,
        jLookup (cleanFields (exMaxRewrite (exMinRewrite m))) f = none := by
      intro f hf
      unfold cleanFields
      rw [foldl_eraseKeyJ_lookup, if_pos hf]
    rw [show ∀ r, noBannedF (fuel + 1) r =
      (unsupportedFields.all (fun f => (jLookup r f).isNone) &&
        propsOK (noBannedF fuel) r && itemsOK (noBannedF fuel) r) from fun r => rfl]
    rw [Bool.and_eq_true, Bool.and_eq_true]
    refine ⟨⟨?_, ?_⟩, ?_⟩
    · rw [List.all_eq_true]
      intro f hf
      rw [updItemsWith_other _ _ _ (hfacts f hf).1,
          updPropsWith_other _ _ _ (hfacts f hf).2, hban f hf]
      rfl
    · have hpl : jLookup (updItemsWith (cleanSchemaF fuel)
          (updPropsWith (cleanSchemaF fuel)
            (cleanFields (exMaxRewrite (exMinRewrite m))))) "properties" =
          jLookup (updPropsWith (cleanSchemaF fuel)
            (cleanFields (exMaxRewrite (exMinRewrite m)))) "properties" :=
        updItemsWith_other _ _ _ (by decide)
      cases hp : jLookup (cleanFields (exMaxRewrite (exMinRewrite m))) "properties" with
      | none =>
        have hm2 : updPropsWith (cleanSchemaF fuel)
            (cleanFields (exMaxRewrite (exMinRewrite m))) =
            cleanFields (exMaxRewrite (exMinRewrite m)) := by
          unfold updPropsWith
          rw [hp]
        unfold propsOK
        rw [hpl, hm2, hp]
      | some v =>
        cases v with
        | obj props =>
          have hm2 : jLookup (updPropsWith (cleanSchemaF fuel)
              (cleanFields (exMaxRewrite (exMinRewrite m)))) "properties" =
              some (JVal.obj (props.map (fun kv =>
                match kv.2 with
                | JVal.obj o => (kv.1, JVal.obj (cleanSchemaF fuel o))
                | _ => kv))) := by
            unfold updPropsWith
            rw [hp]
            exact jLookup_setKeyJ_self _ _ _
          unfold propsOK
          rw [hpl, hm2]
          rw [List.all_eq_true]
          intro kv hkv
          obtain ⟨kv0, hkv0, rfl⟩ := List.mem_map.mp hkv
          obtain ⟨k0, v0⟩ := kv0
          cases v0 with
          | obj o => exact ih o
          | str s => rfl
          | num q => rfl
          | bool b => rfl
          | null => rfl
          | arr a => rfl
        | str s =>
          have hm2 : updPropsWith (cleanSchemaF fuel)
              (cleanFields (exMaxRewrite (exMinRewrite m))) =
              cleanFields (exMaxRewrite (exMinRewrite m)) := by
            unfold updPropsWith
            rw [hp]
          unfold propsOK
          rw [hpl, hm2, hp]
        | num q =>
          have hm2 : updPropsWith (cleanSchemaF fuel)
              (cleanFields (exMaxRewrite (exMinRewrite m))) =
              cleanFields (exMaxRewrite (exMinRewrite m)) := by
            unfold updPropsWith
            rw [hp]
          unfold propsOK
          rw [hpl, hm2, hp]
        | bool b =>
          have hm2 : updPropsWith (cleanSchemaF fuel)
              (cleanFields (exMaxRewrite (exMinRewrite m))) =
              cleanFields (exMaxRewrite (exMinRewrite m)) := by
            unfold updPropsWith
            rw [hp]
          unfold propsOK
          rw [hpl, hm2, hp]
        | null =>
          have hm2 : updPropsWith (cleanSchemaF fuel)
              (cleanFields (exMaxRewrite (exMinRewrite m))) =
              cleanFields (exMaxRewrite (exMinRewrite m)) := by
            unfold updPropsWith
            rw [hp]
          unfold propsOK
          rw [hpl, hm2, hp]
        | arr a =>
          have hm2 : updPropsWith (cleanSchemaF fuel)
              (cleanFields (exMaxRewrite (exMinRewrite m))) =
              cleanFields (exMaxRewrite (exMinRewrite m)) := by
            unfold updPropsWith
            rw [hp]
          unfold propsOK
          rw [hpl, hm2, hp]
    · cases hi : jLookup (updPropsWith (cleanSchemaF fuel)
          (cleanFields (exMaxRewrite (exMinRewrite m)))) "items" with
      | none =>
        have hr : updItemsWith (cleanSchemaF fuel)
            (updPropsWith (cleanSchemaF fuel)
              (cleanFields (exMaxRewrite (exMinRewrite m)))) =
            updPropsWith (cleanSchemaF fuel)
              (cleanFields (exMaxRewrite (exMinRewrite m))) := by
          unfold updItemsWith
          rw [hi]
        unfold itemsOK
        rw [hr, hi]
      | some v =>
        cases v with
        | obj o =>
          have hr : jLookup (updItemsWith (cleanSchemaF fuel)
              (updPropsWith (cleanSchemaF fuel)
                (cleanFields (exMaxRewrite (exMinRewrite m))))) "items" =
              some (JVal.obj (cleanSchemaF fuel o)) := by
            unfold updItemsWith
            rw [hi]
            exact jLookup_setKeyJ_self _ _ _
          unfold itemsOK
          rw [hr]
          exact ih o
        | arr l =>
          have hr : jLookup (updItemsWith (cleanSchemaF fuel)
              (updPropsWith (cleanSchemaF fuel)
                (cleanFields (exMaxRewrite (exMinRewrite m))))) "items" =
              some (JVal.arr (l.map (fun v =>
                match v with
                | JVal.obj o => JVal.obj (cleanSchemaF fuel o)
                | _ => v))) := by
            unfold updItemsWith
            rw [hi]
            exact jLookup_setKeyJ_self _ _ _
          unfold itemsOK
          rw [hr]
          rw [List.all_eq_true]
          intro v hv
          obtain ⟨v0, hv0, rfl⟩ := List.mem_map.mp hv
          cases v0 with
          | obj o => exact ih o
          | str s => rfl
          | num q => rfl
          | bool b => rfl
          | null => rfl
          | arr a => rfl
        | str s =>
          have hr : updItemsWith (cleanSchemaF fuel)
              (updPropsWith (cleanSchemaF fuel)
                (cleanFields (exMaxRewrite (exMinRewrite m)))) =
              updPropsWith (cleanSchemaF fuel)
                (cleanFields (exMaxRewrite (exMinRewrite m))) := by
            unfold updItemsWith
            rw [hi]
          unfold itemsOK
          rw [hr, hi]
        | num q =>
          have hr : updItemsWith (cleanSchemaF fuel)
              (updPropsWith (cleanSchemaF fuel)
                (cleanFields (exMaxRewrite (exMinRewrite m)))) =
              updPropsWith (cleanSchemaF fuel)
                (cleanFields (exMaxRewrite (exMinRewrite m))) := by
            unfold updItemsWith
            rw [hi]
          unfold itemsOK
          rw [hr, hi]
        | bool b =>
          have hr : updItemsWith (cleanSchemaF fuel)
              (updPropsWith (cleanSchemaF fuel)
                (cleanFields (exMaxRewrite (exMinRewrite m)))) =
              updPropsWith (cleanSchemaF fuel)
                (cleanFields (exMaxRewrite (exMinRewrite m))) := by
            unfold updItemsWith
            rw [hi]
          unfold itemsOK
          rw [hr, hi]
        | null =>
          have hr : updItemsWith (cleanSchemaF fuel)
              (updPropsWith (cleanSchemaF fuel)
                (cleanFields (exMaxRewrite (exMinRewrite m)))) =
              updPropsWith (cleanSchemaF fuel)
                (cleanFields (exMaxRewrite (exMinRewrite m))) := by
            unfold updItemsWith
            rw [hi]
          unfold itemsOK
          rw [hr, hi]

/-- C8 (corrected).  Top-level behaviour of the Vertex AI schema cleaner:
a float64 exclusiveMinimum is deleted, and minimum is set to ex+1 ONLY
when the schema does not already carry a minimum key (an existing minimum
is preserved); symmetrically for exclusiveMaximum/maximum with ex-1.
Every field of the 27-entry unsupported list is removed, and the
fuel-matched recursive checker confirms the same removal holds inside
properties values, an object-form items, and array-form items elements.
The original claim's unconditional rewrite of exclusiveMinimum to
minimum = ex+1 does not hold when minimum is already present. -/
theorem schema_cleaning (m : List (String × JVal)) :
    (∀ x : Rat, jLookup m "exclusiveMinimum" = some (JVal.num x) →
      jLookup (cleanSchemaForVertexAI m) "exclusiveMinimum" = none ∧
      (jLookup m "minimum" = none →
        jLookup (cleanSchemaForVertexAI m) "minimum" = some (JVal.num (x + 1))) ∧
      (∀ v, jLookup m "minimum" = some v →
        jLookup (cleanSchemaForVertexAI m) "minimum" = some v)) ∧
    (∀ x : Rat, jLookup m "exclusiveMaximum" = some (JVal.num x) →
      jLookup (cleanSchemaForVertexAI m) "exclusiveMaximum" = none ∧
      (jLookup m "maximum" = none →
        jLookup (cleanSchemaForVertexAI m) "maximum" = some (JVal.num (x - 1))) ∧
      (∀ v, jLookup m "maximum" = some v →
        jLookup (cleanSchemaForVertexAI m) "maximum" = some v)) ∧
    (∀ f ∈ unsupportedFields, jLookup (cleanSchemaForVertexAI m) f = none) ∧
    noBannedF (schemaFuel m) (cleanSchemaForVertexAI m) = true := by
  have hstep : cleanSchemaForVertexAI m =
      updItemsWith (cleanSchemaF (jDepthObj m))
        (updPropsWith (cleanSchemaF (jDepthObj m))
          (cleanFields (exMaxRewrite (exMinRewrite m)))) := rfl
  have hchain : ∀ k : String, k ≠ "items" → k ≠ "properties" →
      k ∉ unsupportedFields →
      jLookup (cleanSchemaForVertexAI m) k =
        jLookup (exMaxRewrite (exMinRewrite m)) k := by
    intro k h1 h2 h3
    rw [hstep, updItemsWith_other _ _ _ h1, updPropsWith_other _ _ _ h2]
    unfold cleanFields
    rw [foldl_eraseKeyJ_lookup, if_neg h3]
  refine ⟨?_, ?_, ?_, ?_⟩
  · intro x hx
    refine ⟨?_, ?_, ?_⟩
    · rw [hchain "exclusiveMinimum" (by decide) (by decide) (by decide)]
      rw [exMaxRewrite_other _ _ (by decide) (by decide)]
      exact exMinRewrite_exMin m x hx
    · intro habs
      rw [hchain "minimum" (by decide) (by decide) (by decide)]
      rw [exMaxRewrite_other _ _ (by decide) (by decide)]
      exact exMinRewrite_min_absent m x hx habs
    · intro v hv
      rw [hchain "minimum" (by decide) (by decide) (by decide)]
      rw [exMaxRewrite_other _ _ (by decide) (by decide)]
      exact exMinRewrite_min_present m x v hx hv
  · intro x hx
    have hx2 : jLookup (exMinRewrite m) "exclusiveMaximum" = some (JVal.num x) := by
      rw [exMinRewrite_other _ _ (by decide) (by decide)]
      exact hx
    refine ⟨?_, ?_, ?_⟩
    · rw [hchain "exclusiveMaximum" (by decide) (by decide) (by decide)]
      exact exMaxRewrite_exMax _ x hx2
    · intro habs
      rw [hchain "maximum" (by decide) (by decide) (by decide)]
      refine exMaxRewrite_max_absent _ x hx2 ?_
      rw [exMinRewrite_other _ _ (by decide) (by decide)]
      exact habs
    · intro v hv
      rw [hchain "maximum" (by decide) (by decide) (by decide)]
      refine exMaxRewrite_max_present _ x v hx2 ?_
      rw [exMinRewrite_other _ _ (by decide) (by decide)]
      exact hv
  · intro f hf
    have hfacts : ∀ g ∈ unsupportedFields, g ≠ "items" ∧ g ≠ "properties" := by
      decide
    rw [hstep, updItemsWith_other _ _ _ (hfacts f hf).1,
        updPropsWith_other _ _ _ (hfacts f hf).2]
    unfold cleanFields
    rw [foldl_eraseKeyJ_lookup, if_pos hf]
  · exact noBannedF_cleanSchemaF (schemaFuel m) m

/-- Counterexample to C8 as stated: a schema carrying both
exclusiveMinimum 0 and minimum 5.  The cleaner deletes exclusiveMinimum
but keeps minimum 5; it does not rewrite minimum to ex+1 = 1 as the
unconditional reading of the claim requires. -/
theorem schema_cleaning_counterexample :
    cleanSchemaForVertexAI [("exclusiveMinimum", JVal.num 0), ("minimum", JVal.num 5)] =
      [("minimum", JVal.num 5)] ∧
    jLookup (cleanSchemaForVertexAI
        [("exclusiveMinimum", JVal.num 0), ("minimum", JVal.num 5)]) "minimum" ≠
      some (JVal.num (0 + 1)) := by
  refine ⟨rfl, ?_⟩
  intro h
  rw [show jLookup (cleanSchemaForVertexAI
      [("exclusiveMinimum", JVal.num 0), ("minimum", JVal.num 5)]) "minimum" =
      some (JVal.num 5) from rfl] at h
  injection h with h2
  injection h2 with h3
  norm_num at h3

/-- Witness for C8 (amended): the spec's S6 schema through the tool
conversion, and the exclusiveMinimum clause of the theorem applied to the
inner schema of S6 at x = 0. -/
theorem schema_cleaning_witness :
    ConvertClaudeToolsToAntigravity
      [{ name := "f", description := "d",
         inputSchema :=
           [("type", JVal.str "object"),
            ("properties", JVal.obj
              [("n", JVal.obj
                [("type", JVal.str "integer"),
                 ("exclusiveMinimum", JVal.num 0),
                 ("pattern", JVal.str "x")])])] }] =
      [{ functionDeclarations :=
           [{ name := "f", description := "d",
              parameters :=
                [("type", JVal.str "object"),
                 ("properties", JVal.obj
                   [("n", JVal.obj
                     [("type", JVal.str "integer"),
                      ("minimum", JVal.num (0 + 1))])])] }] }] ∧
    (0 : Rat) + 1 = 1 ∧
    jLookup (cleanSchemaForVertexAI
        [("type", JVal.str "integer"), ("exclusiveMinimum", JVal.num 0),
         ("pattern", JVal.str "x")]) "minimum" = some (JVal.num (0 + 1)) := by
  refine ⟨rfl, by norm_num, ?_⟩
  exact ((schema_cleaning
    [("type", JVal.str "integer"), ("exclusiveMinimum", JVal.num 0),
     ("pattern", JVal.str "x")]).1 0 rfl).2.1 rfl

end ClaudeConv

/-!
## Stream part merging (src/internal/vertex/stream.go, mergeParts)

Parts are arbitrary JSON values (`JVal`); a `map[string]interface{}` part
is `JVal.obj`.  The two `strings.Builder`s and the two extra-field maps
of the Go loop become the explicit state `MergeSt`, folded over the input
with `mergeStep`.  Go map iteration order in `buildPart` / the extra-field
merge is unspecified; here extra fields keep first-encounter order with
later values overriding earlier ones via `setKeyJ`.  `mergeSpec` is a
second definition written from the specification's words (coalesce each
maximal run of same-kind text parts, flushing on kind switch or on a
non-text part, preserving order); the C9 theorem compares the two.
-/

namespace Vertex

def extractExtraFields (part : List (String × JVal)) : Option (List (String × JVal)) :=
  if (part.filter (fun kv => kv.1 != "text" && kv.1 != "thought")).isEmpty then none
  else some (part.filter (fun kv => kv.1 != "text" && kv.1 != "thought"))

def mergeExtraFields (existing newFields : Option (List (String × JVal))) :
    Option (List (String × JVal)) :=
  match newFields with
  | none => existing
  | some nf =>
    some (nf.foldl (fun acc kv => setKeyJ acc kv.1 kv.2) (existing.getD []))

def buildPart (text : String) (thought : Bool)
    (extra : Option (List (String × JVal))) : List (String × JVal) :=
  (extra.getD []).foldl (fun acc kv => setKeyJ acc kv.1 kv.2)
    (if thought then [("text", JVal.str text), ("thought", JVal.bool true)]
     else [("text", JVal.str text)])

def isThoughtPart (part : List (String × JVal)) : Bool :=
  match jLookup part "thought" with
  | some (JVal.bool b) => b
  | _ => false

inductive PKind where
  | plain : String → Option (List (String × JVal)) → PKind
  | think : String → Option (List (String × JVal)) → PKind
  | raw : JVal → PKind

def classifyObj (part : List (String × JVal)) : PKind :=
  match jLookup part "text" with
  | some (JVal.str text) =>
    if text = "" then PKind.raw (JVal.obj part)
    else if isThoughtPart part then PKind.think text (extractExtraFields part)
    else PKind.plain text (extractExtraFields part)
  | _ => PKind.raw (JVal.obj part)

def classify : JVal → PKind
  | JVal.obj part => classifyObj part
  | p => PKind.raw p

structure MergeSt where
  merged : List JVal
  textBuf : String
  thinkBuf : String
  textExtra : Option (List (String × JVal))
  thinkExtra : Option (List (String × JVal))

def flushText (st : MergeSt) : MergeSt :=
  if st.textBuf = "" then st
  else
    { st with
        merged := st.merged ++ [JVal.obj (buildPart st.textBuf false st.textExtra)],
        textBuf := "", textExtra := none }

def flushThinking (st : MergeSt) : MergeSt :=
  if st.thinkBuf = "" then st
  else
    { st with
        merged := st.merged ++ [JVal.obj (buildPart st.thinkBuf true st.thinkExtra)],
        thinkBuf := "", thinkExtra := none }

def addPlainText (st : MergeSt) (text : String)
    (extra : Option (List (String × JVal))) : MergeSt :=
  { st with textBuf := st.textBuf ++ text,
            textExtra := mergeExtraFields st.textExtra extra }

def addThinkText (st : MergeSt) (text : String)
    (extra : Option (List (String × JVal))) : MergeSt :=
  { st with thinkBuf := st.thinkBuf ++ text,
            thinkExtra := mergeExtraFields st.thinkExtra extra }

def mergeAppendRaw (st : MergeSt) (part : List (String × JVal)) : MergeSt :=
  { flushThinking (flushText st) with
      merged := (flushThinking (flushText st)).merged ++ [JVal.obj part] }

def mergeStep (st : MergeSt) (p : JVal) : MergeSt :=
  match p with
  | JVal.obj part =>
    (match classify (JVal.obj part) with
     | PKind.plain t e => addPlainText (flushThinking st) t e
     | PKind.think t e => addThinkText (flushText st) t e
     | PKind.raw _ => mergeAppendRaw st part)
  | _ => { st with merged := st.merged ++ [p] }

def initMergeSt : MergeSt := ⟨[], "", "", none, none⟩

def mergeParts (parts : List JVal) : List JVal :=
  if parts.isEmpty then parts
  else (flushText (flushThinking (parts.foldl mergeStep initMergeSt))).merged

def flushPending : Option (Bool × String × Option (List (String × JVal))) → List JVal
  | none => []
  | some (thought, t, e) => [JVal.obj (buildPart t thought e)]

def mergeSpecAux :
    Option (Bool × String × Option (List (String × JVal))) → List JVal → List JVal
  | pending, [] => flushPending pending
  | pending, p :: rest =>
    match classify p with
    | PKind.raw v => flushPending pending ++ (v :: mergeSpecAux none rest)
    | PKind.plain t e =>
      (match pending with
       | some (false, t0, e0) =>
         mergeSpecAux (some (false, t0 ++ t, mergeExtraFields e0 e)) rest
       | some (true, t0, e0) =>
         flushPending (some (true, t0, e0)) ++
           mergeSpecAux (some (false, t, mergeExtraFields none e)) rest
       | none => mergeSpecAux (some (false, t, mergeExtraFields none e)) rest)
    | PKind.think t e =>
      (match pending with
       | some (true, t0, e0) =>
         mergeSpecAux (some (true, t0 ++ t, mergeExtraFields e0 e)) rest
       | some (false, t0, e0) =>
         flushPending (some (false, t0, e0)) ++
           mergeSpecAux (some (true, t, mergeExtraFields none e)) rest
       | none => mergeSpecAux (some (true, t, mergeExtraFields none e)) rest)

def mergeSpec (parts : List JVal) : List JVal := mergeSpecAux none parts

def isObjPart : JVal → Bool
  | JVal.obj _ => true
  | _ => false

def stInv (st : MergeSt) : Prop :=
  (st.textBuf = "" ∨ st.thinkBuf = "") ∧
  (st.textBuf = "" → st.textExtra = none) ∧
  (st.thinkBuf = "" → st.thinkExtra = none)

def pendingOf (st : MergeSt) :
    Option (Bool × String × Option (List (String × JVal))) :=
  if st.thinkBuf = "" then
    (if st.textBuf = "" then none else some (false, st.textBuf, st.textExtra))
  else some (true, st.thinkBuf, st.thinkExtra)

theorem str_empty_append (t : String) : "" ++ t = t := by
  cases t
  rfl

theorem str_append_ne_empty (s t : String) (h : t ≠ "") : s ++ t ≠ "" := by
  intro he
  apply h
  have hd : (s ++ t).data = ([] : List Char) := by rw [he]
  rw [String.data_append] at hd
  rcases List.append_eq_nil.mp hd with ⟨-, h2⟩
  exact String.ext h2

theorem classify_obj_raw (part : List (String × JVal)) (v : JVal)
    (hc : classify (JVal.obj part) = PKind.raw v) : v = JVal.obj part := by
  rw [show classify (JVal.obj part) = classifyObj part from rfl] at hc
  unfold classifyObj at hc
  split at hc
  · split_ifs at hc <;> (try cases hc) <;>
      first
        | rfl
        | (injection hc with h; exact h.symm)
  all_goals
    injection hc with h
    exact h.symm

theorem classify_plain_ne (part : List (String × JVal)) (t : String)
    (e : Option (List (String × JVal)))
    (hc : classify (JVal.obj part) = PKind.plain t e) : t ≠ "" := by
  rw [show classify (JVal.obj part) = classifyObj part from rfl] at hc
  unfold classifyObj at hc
  split at hc
  · split_ifs at hc with h1 h2 <;> (try cases hc) <;>
      first
        | simp_all
        | (injection hc with ht he; simp_all)
  all_goals cases hc

theorem classify_think_ne (part : List (String × JVal)) (t : String)
    (e : Option (List (String × JVal)))
    (hc : classify (JVal.obj part) = PKind.think t e) : t ≠ "" := by
  rw [show classify (JVal.obj part) = classifyObj part from rfl] at hc
  unfold classifyObj at hc
  split at hc
  · split_ifs at hc with h1 h2 <;> (try cases hc) <;>
      first
        | simp_all
        | (injection hc with ht he; simp_all)
  all_goals cases hc

theorem specAux_raw (pd : Option (Bool × String × Option (List (String × JVal))))
    (p : JVal) (rest : List JVal) (v : JVal) (hc : classify p = PKind.raw v) :
    mergeSpecAux pd (p :: rest) = flushPending pd ++ (v :: mergeSpecAux none rest) := by
  simp only [mergeSpecAux]
  rw [hc]

theorem specAux_plain_none (p : JVal) (rest : List JVal) (t : String)
    (e : Option (List (String × JVal))) (hc : classify p = PKind.plain t e) :
    mergeSpecAux none (p :: rest) =
      mergeSpecAux (some (false, t, mergeExtraFields none e)) rest := by
  simp only [mergeSpecAux]
  rw [hc]

theorem specAux_plain_plain (p : JVal) (rest : List JVal) (t t0 : String)
    (e e0 : Option (List (String × JVal))) (hc : classify p = PKind.plain t e) :
    mergeSpecAux (some (false, t0, e0)) (p :: rest) =
      mergeSpecAux (some (false, t0 ++ t, mergeExtraFields e0 e)) rest := by
  simp only [mergeSpecAux]
  rw [hc]

theorem specAux_plain_think (p : JVal) (rest : List JVal) (t t0 : String)
    (e e0 : Option (List (String × JVal))) (hc : classify p = PKind.plain t e) :
    mergeSpecAux (some (true, t0, e0)) (p :: rest) =
      flushPending (some (true, t0, e0)) ++
        mergeSpecAux (some (false, t, mergeExtraFields none e)) rest := by
  simp only [mergeSpecAux]
  rw [hc]

theorem specAux_think_none (p : JVal) (rest : List JVal) (t : String)
    (e : Option (List (String × JVal))) (hc : classify p = PKind.think t e) :
    mergeSpecAux none (p :: rest) =
      mergeSpecAux (some (true, t, mergeExtraFields none e)) rest := by
  simp only [mergeSpecAux]
  rw [hc]

theorem specAux_think_think (p : JVal) (rest : List JVal) (t t0 : String)
    (e e0 : Option (List (String × JVal))) (hc : classify p = PKind.think t e) :
    mergeSpecAux (some (true, t0, e0)) (p :: rest) =
      mergeSpecAux (some (true, t0 ++ t, mergeExtraFields e0 e)) rest := by
  simp only [mergeSpecAux]
  rw [hc]

theorem specAux_think_plain (p : JVal) (rest : List JVal) (t t0 : String)
    (e e0 : Option (List (String × JVal))) (hc : classify p = PKind.think t e) :
    mergeSpecAux (some (false, t0, e0)) (p :: rest) =
      flushPending (some (false, t0, e0)) ++
        mergeSpecAux (some (true, t, mergeExtraFields none e)) rest := by
  simp only [mergeSpecAux]
  rw [hc]

theorem flush2_eq (st : MergeSt) (hst : stInv st) :
    flushThinking (flushText st) =
      { merged := st.merged ++ flushPending (pendingOf st), textBuf := "",
        thinkBuf := "", textExtra := none, thinkExtra := none } := by
  obtain ⟨mg, tb, kb, te, ke⟩ := st
  obtain ⟨hor, hte, hke⟩ := hst
  by_cases ht : tb = ""
  · subst ht
    have h1 : te = none := hte rfl
    subst h1
    by_cases hk : kb = ""
    · subst hk
      have h2 : ke = none := hke rfl
      subst h2
      simp [flushText, flushThinking, pendingOf, flushPending]
    · simp [flushText, flushThinking, pendingOf, flushPending, hk]
  · have hk : kb = "" := by
      rcases hor with h | h
      · exact absurd h ht
      · exact h
    subst hk
    have h2 : ke = none := hke rfl
    subst h2
    simp [flushText, flushThinking, pendingOf, flushPending, ht]

theorem flush2b_eq (st : MergeSt) (hst : stInv st) :
    flushText (flushThinking st) =
      { merged := st.merged ++ flushPending (pendingOf st), textBuf := "",
        thinkBuf := "", textExtra := none, thinkExtra := none } := by
  obtain ⟨mg, tb, kb, te, ke⟩ := st
  obtain ⟨hor, hte, hke⟩ := hst
  by_cases ht : tb = ""
  · subst ht
    have h1 : te = none := hte rfl
    subst h1
    by_cases hk : kb = ""
    · subst hk
      have h2 : ke = none := hke rfl
      subst h2
      simp [flushText, flushThinking, pendingOf, flushPending]
    · simp [flushText, flushThinking, pendingOf, flushPending, hk]
  · have hk : kb = "" := by
      rcases hor with h | h
      · exact absurd h ht
      · exact h
    subst hk
    have h2 : ke = none := hke rfl
    subst h2
    simp [flushText, flushThinking, pendingOf, flushPending, ht]

theorem merge_fold_spec :
    ∀ parts : List JVal, (∀ p ∈ parts, isObjPart p = true) →
      ∀ st : MergeSt, stInv st →
        (flushText (flushThinking (parts.foldl mergeStep st))).merged =
          st.merged ++ mergeSpecAux (pendingOf st) parts := by
  intro parts
  induction parts with
  | nil =>
    intro _ st hst
    rw [show List.foldl mergeStep st [] = st from rfl]
    rw [flush2b_eq st hst]
    rfl
  | cons p rest ih =>
    intro hobj st hst
    have hop : isObjPart p = true := hobj p (List.mem_cons_self _ _)
    have hobjr : ∀ q ∈ rest, isObjPart q = true :=
      fun q hq => hobj q (List.mem_cons_of_mem _ hq)
    rw [List.foldl_cons]
    cases p with
    | str s => simp [isObjPart] at hop
    | num q => simp [isObjPart] at hop
    | bool b => simp [isObjPart] at hop
    | null => simp [isObjPart] at hop
    | arr a => simp [isObjPart] at hop
    | obj part =>
      cases hc : classify (JVal.obj part) with
      | raw v =>
        have hv : v = JVal.obj part := classify_obj_raw part v hc
        subst hv
        have hstep : mergeStep st (JVal.obj part) = mergeAppendRaw st part := by
          simp only [mergeStep]
          rw [hc]
        rw [hstep]
        have hraw : mergeAppendRaw st part =
            { merged := st.merged ++ flushPending (pendingOf st) ++ [JVal.obj part],
              textBuf := "", thinkBuf := "", textExtra := none,
              thinkExtra := none } := by
          unfold mergeAppendRaw
          rw [flush2_eq st hst]
        rw [hraw]
        have hinv2 : stInv
            { merged := st.merged ++ flushPending (pendingOf st) ++ [JVal.obj part],
              textBuf := "", thinkBuf := "", textExtra := none,
              thinkExtra := (none : Option (List (String × JVal))) } :=
          ⟨Or.inl rfl, fun _ => rfl, fun _ => rfl⟩
        rw [ih hobjr _ hinv2]
        rw [specAux_raw (pendingOf st) _ rest _ hc]
        simp [pendingOf, List.append_assoc]
      | plain t e =>
        have hne : t ≠ "" := classify_plain_ne part t e hc
        have hstep : mergeStep st (JVal.obj part) =
            addPlainText (flushThinking st) t e := by
          simp only [mergeStep]
          rw [hc]
        rw [hstep]
        obtain ⟨mg, tb, kb, te, ke⟩ := st
        obtain ⟨hor, hte, hke⟩ := hst
        by_cases hk : kb = ""
        · subst hk
          have h2 : ke = none := hke rfl
          subst h2
          have hkeep : flushThinking ⟨mg, tb, "", te, none⟩ = ⟨mg, tb, "", te, none⟩ := by
            simp [flushThinking]
          rw [hkeep]
          have hadd : addPlainText ⟨mg, tb, "", te, none⟩ t e =
              ⟨mg, tb ++ t, "", mergeExtraFields te e, none⟩ := rfl
          rw [hadd]
          have hinv2 : stInv (⟨mg, tb ++ t, "", mergeExtraFields te e, none⟩ : MergeSt) :=
            ⟨Or.inr rfl, fun h => absurd h (str_append_ne_empty tb t hne),
             fun _ => rfl⟩
          rw [ih hobjr _ hinv2]
          by_cases ht : tb = ""
          · subst ht
            have h1 : te = none := hte rfl
            subst h1
            have hpd : pendingOf ⟨mg, "", "", none, none⟩ = none := rfl
            rw [hpd, specAux_plain_none _ rest t e hc]
            rw [str_empty_append t]
            simp [pendingOf, if_neg hne]
          · have hpd : pendingOf ⟨mg, tb, "", te, none⟩ = some (false, tb, te) := by
              simp [pendingOf, ht]
            rw [hpd, specAux_plain_plain _ rest t tb e te hc]
            simp [pendingOf, if_neg ht, if_neg (str_append_ne_empty tb t hne)]
        · have ht : tb = "" := by
            rcases hor with h | h
            · exact h
            · exact absurd h hk
          subst ht
          have h1 : te = none := hte rfl
          subst h1
          have hflush : flushThinking ⟨mg, "", kb, none, ke⟩ =
              ⟨mg ++ [JVal.obj (buildPart kb true ke)], "", "", none, none⟩ := by
            simp [flushThinking, hk]
          rw [hflush]
          have hadd : addPlainText ⟨mg ++ [JVal.obj (buildPart kb true ke)], "", "", none, none⟩ t e =
              ⟨mg ++ [JVal.obj (buildPart kb true ke)], "" ++ t, "",
               mergeExtraFields none e, none⟩ := rfl
          rw [hadd]
          have hinv2 : stInv (⟨mg ++ [JVal.obj (buildPart kb true ke)], "" ++ t, "",
              mergeExtraFields none e, none⟩ : MergeSt) :=
            ⟨Or.inr rfl, fun h => absurd h (str_append_ne_empty "" t hne),
             fun _ => rfl⟩
          rw [ih hobjr _ hinv2]
          have hpd : pendingOf ⟨mg, "", kb, none, ke⟩ = some (true, kb, ke) := by
            simp [pendingOf, hk]
          rw [hpd, specAux_plain_think _ rest t kb e ke hc]
          rw [str_empty_append t]
          simp [pendingOf, if_neg hne, if_neg hk, flushPending, List.append_assoc]
      | think t e =>
        have hne : t ≠ "" := classify_think_ne part t e hc
        have hstep : mergeStep st (JVal.obj part) =
            addThinkText (flushText st) t e := by
          simp only [mergeStep]
          rw [hc]
        rw [hstep]
        obtain ⟨mg, tb, kb, te, ke⟩ := st
        obtain ⟨hor, hte, hke⟩ := hst
        by_cases ht : tb = ""
        · subst ht
          have h1 : te = none := hte rfl
          subst h1
          have hkeep : flushText ⟨mg, "", kb, none, ke⟩ = ⟨mg, "", kb, none, ke⟩ := by
            simp [flushText]
          rw [hkeep]
          have hadd : addThinkText ⟨mg, "", kb, none, ke⟩ t e =
              ⟨mg, "", kb ++ t, none, mergeExtraFields ke e⟩ := rfl
          rw [hadd]
          have hinv2 : stInv (⟨mg, "", kb ++ t, none, mergeExtraFields ke e⟩ : MergeSt) :=
            ⟨Or.inl rfl, fun _ => rfl,
             fun h => absurd h (str_append_ne_empty kb t hne)⟩
          rw [ih hobjr _ hinv2]
          by_cases hk : kb = ""
          · subst hk
            have h2 : ke = none := hke rfl
            subst h2
            have hpd : pendingOf ⟨mg, "", "", none, none⟩ = none := rfl
            rw [hpd, specAux_think_none _ rest t e hc]
            rw [str_empty_append t]
            simp [pendingOf, if_neg hne]
          · have hpd : pendingOf ⟨mg, "", kb, none, ke⟩ = some (true, kb, ke) := by
              simp [pendingOf, hk]
            rw [hpd, specAux_think_think _ rest t kb e ke hc]
            simp [pendingOf, if_neg hk, if_neg (str_append_ne_empty kb t hne)]
        · have hk : kb = "" := by
            rcases hor with h | h
            · exact absurd h ht
            · exact h
          subst hk
          have h2 : ke = none := hke rfl
          subst h2
          have hflush : flushText ⟨mg, tb, "", te, none⟩ =
              ⟨mg ++ [JVal.obj (buildPart tb false te)], "", "", none, none⟩ := by
            simp [flushText, ht]
          rw [hflush]
          have hadd : addThinkText ⟨mg ++ [JVal.obj (buildPart tb false te)], "", "", none, none⟩ t e =
              ⟨mg ++ [JVal.obj (buildPart tb false te)], "", "" ++ t, none,
               mergeExtraFields none e⟩ := rfl
          rw [hadd]
          have hinv2 : stInv (⟨mg ++ [JVal.obj (buildPart tb false te)], "", "" ++ t, none,
              mergeExtraFields none e⟩ : MergeSt) :=
            ⟨Or.inl rfl, fun _ => rfl,
             fun h => absurd h (str_append_ne_empty "" t hne)⟩
          rw [ih hobjr _ hinv2]
          have hpd : pendingOf ⟨mg, tb, "", te, none⟩ = some (false, tb, te) := by
            simp [pendingOf, ht]
          rw [hpd, specAux_think_plain _ rest t tb e te hc]
          rw [str_empty_append t]
          simp [pendingOf, if_neg hne, if_neg ht, flushPending, List.append_assoc]

/-- C9 (corrected).  For part lists in which every element is a JSON
object, the merged result coalesces each maximal run of consecutive
same-kind text parts (plain or thought) into one part carrying the
concatenated text and the override-union of the run's extra fields,
flushes the pending run when the kind switches or a non-text object part
appears (the latter kept verbatim), and preserves relative order — stated
as equality with the run-based specification mergeSpec.  The restriction
to object parts is necessary: a non-map element is appended without
flushing the builders, so pending text is emitted after it, violating the
claimed order preservation. -/
theorem mergeParts_runs (parts : List JVal)
    (hobj : ∀ p ∈ parts, isObjPart p = true) :
    mergeParts parts = mergeSpec parts := by
  cases parts with
  | nil => rfl
  | cons p rest =>
    unfold mergeParts
    rw [if_neg (by simp)]
    rw [merge_fold_spec (p :: rest) hobj initMergeSt
      ⟨Or.inl rfl, fun _ => rfl, fun _ => rfl⟩]
    simp [mergeSpec, pendingOf, initMergeSt]

/-- Counterexample to C9 as stated: a text part followed by a non-map
part.  mergeParts appends the raw element without flushing the pending
text run, which is emitted only at the end — after the raw element —
reversing the original order; the run-based specification keeps the
order. -/
theorem mergeParts_counterexample :
    mergeParts [JVal.obj [("text", JVal.str "a")], JVal.str "raw"] =
      [JVal.str "raw", JVal.obj [("text", JVal.str "a")]] ∧
    mergeSpec [JVal.obj [("text", JVal.str "a")], JVal.str "raw"] =
      [JVal.obj [("text", JVal.str "a")], JVal.str "raw"] :=
  ⟨rfl, rfl⟩

/-- Witness for C9 (amended) on an all-object stream: two thought parts
(one carrying a thoughtSignature), two plain text parts, a functionCall
part, and a trailing text part.  Runs are coalesced with concatenated
text and merged extra fields, the functionCall part is kept verbatim in
position, and order is preserved. -/
theorem mergeParts_runs_witness :
    mergeParts
      [JVal.obj [("text", JVal.str "Th1"), ("thought", JVal.bool true)],
       JVal.obj [("text", JVal.str "Th2"), ("thought", JVal.bool true),
                 ("thoughtSignature", JVal.str "S")],
       JVal.obj [("text", JVal.str "A")],
       JVal.obj [("text", JVal.str "B")],
       JVal.obj [("functionCall", JVal.obj [("name", JVal.str "f")])],
       JVal.obj [("text", JVal.str "C")]] =
      mergeSpec
      [JVal.obj [("text", JVal.str "Th1"), ("thought", JVal.bool true)],
       JVal.obj [("text", JVal.str "Th2"), ("thought", JVal.bool true),
                 ("thoughtSignature", JVal.str "S")],
       JVal.obj [("text", JVal.str "A")],
       JVal.obj [("text", JVal.str "B")],
       JVal.obj [("functionCall", JVal.obj [("name", JVal.str "f")])],
       JVal.obj [("text", JVal.str "C")]] ∧
    mergeParts
      [JVal.obj [("text", JVal.str "Th1"), ("thought", JVal.bool true)],
       JVal.obj [("text", JVal.str "Th2"), ("thought", JVal.bool true),
                 ("thoughtSignature", JVal.str "S")],
       JVal.obj [("text", JVal.str "A")],
       JVal.obj [("text", JVal.str "B")],
       JVal.obj [("functionCall", JVal.obj [("name", JVal.str "f")])],
       JVal.obj [("text", JVal.str "C")]] =
      [JVal.obj [("text", JVal.str "Th1Th2"), ("thought", JVal.bool true),
                 ("thoughtSignature", JVal.str "S")],
       JVal.obj [("text", JVal.str "AB")],
       JVal.obj [("functionCall", JVal.obj [("name", JVal.str "f")])],
       JVal.obj [("text", JVal.str "C")]] := by
  constructor
  · exact mergeParts_runs
      [JVal.obj [("text", JVal.str "Th1"), ("thought", JVal.bool true)],
       JVal.obj [("text", JVal.str "Th2"), ("thought", JVal.bool true),
                 ("thoughtSignature", JVal.str "S")],
       JVal.obj [("text", JVal.str "A")],
       JVal.obj [("text", JVal.str "B")],
       JVal.obj [("functionCall", JVal.obj [("name", JVal.str "f")])],
       JVal.obj [("text", JVal.str "C")]] (by decide)
  · rfl

end Vertex

end Anti2api
